import Mathlib

/-!
# Usage collector: project windows, attribution grammars and the query gateway

A shallow embedding of `main.go` (the worker) and `prom/prom.go` (the metric
query gateway) of the collector, followed by theorems about the embedded code.

Conventions of the embedding

* Go `int64` values are `Int`; where the code can leave the 64-bit range the
  saturation or wrap is written out.
* Calls that leave the process (metric queries, submissions) are recorded as
  `Effect`s in the order the code issues them; what a query answers is a
  field of the `Worker`. Logging is left out.
* The goroutines of `RunProject` are embedded as a step function on the state
  of the fan-out; an execution is a schedule of atomic steps.
* A run-time panic is an outcome of its own (`Outcome.panic`), next to a
  returned value and a returned error.
* Standard-library calls (`time`, `regexp`, `strconv`) are embedded by their
  documented behaviour on the arguments the code passes.
-/

namespace Collector

/-! ## `time` -/

/-- A `time.Time`: an instant, in nanoseconds since the Unix epoch, and the
offset in seconds east of UTC that its location has at that instant. -/
structure Time where
  unixNano : Int
  offset : Int
  deriving DecidableEq, Repr

/-- A `time.Duration` is a signed 64-bit count of nanoseconds. -/
abbrev Duration := Int

namespace Time

/-- The constant `time.Second`. -/
def Second : Duration := 1000000000

/-- Largest `time.Duration`, the value `Sub` saturates to. -/
def maxDuration : Duration := 2 ^ 63 - 1

/-- Smallest `time.Duration`, the value `Sub` saturates to. -/
def minDuration : Duration := -(2 ^ 63)

/-- Go `t.Unix()`: whole seconds since the epoch, rounded down. -/
def Unix (t : Time) : Int := t.unixNano / Second

/-- Seconds since the epoch on the wall clock of the location of `t`. -/
def wall (t : Time) : Int := t.Unix + t.offset

/-- The calendar date `(t.Year(), t.Month(), t.Day())` in the location of `t`,
represented by its day count since 1970-01-01. -/
def civilDay (t : Time) : Int := t.wall / 86400

/-- Go `t.Hour()`: the hour within the day, in the location of `t`. -/
def Hour (t : Time) : Int := t.wall % 86400 / 3600

/-- Go `time.Date(y, m, d, 0, 0, 0, 0, time.UTC)` for the calendar date with
day count `day`: midnight UTC of that date. -/
def Date (day : Int) : Time := ⟨day * 86400 * Second, 0⟩

/-- Go `t.AddDate(0, 0, days)` for a `t` in a location of fixed offset (both
call sites pass a UTC time): the same wall-clock time `days` days later. -/
def AddDays (t : Time) (days : Int) : Time := ⟨t.unixNano + days * 86400 * Second, t.offset⟩

/-- Go `t.Before(u)`. -/
def Before (t u : Time) : Bool := decide (t.unixNano < u.unixNano)

/-- Go `t.Sub(u)`, saturating at the ends of `Duration`. -/
def Sub (t u : Time) : Duration :=
  let d := t.unixNano - u.unixNano
  if d > maxDuration then maxDuration else if d < minDuration then minDuration else d

end Time

/-! ## The project usage collector (`main.go`) -/

/-- The `api.CollectorProject` fields the worker reads. -/
structure CollectorProject where
  ID : Int
  deriving DecidableEq, Repr

/-- One `api.CollectorProjectUsageResource`. -/
structure CollectorProjectUsageResource where
  Name : String
  Value : String
  deriving DecidableEq, Repr

/-- The `api.CollectorSetProjectUsage` request. `At` holds the instant whose
RFC 3339 rendering (`t.Format(time.RFC3339)`) the code stores. -/
structure CollectorSetProjectUsage where
  Location : String
  ProjectID : Int
  At : Time
  Resources : List CollectorProjectUsageResource
  deriving DecidableEq, Repr

/-- A scalar query of `prom.Client`, with the arguments of the call. -/
inductive SummaryCall where
  | SummaryCPUUsage (projectID startTimeUnix : Int) (dataRange : String) (rangeSecond : Int)
  | SummaryCPU (projectID startTimeUnix : Int) (dataRange : String) (rangeSecond : Int)
  | SummaryMemory (projectID startTimeUnix : Int) (dataRange : String) (rangeSecond : Int)
  | SummaryEgress (projectID startTimeUnix : Int) (dataRange : String)
  | SummaryDisk (projectID startTimeUnix : Int) (dataRange : String) (rangeSecond : Int)
  | SummaryReplica (projectID startTimeUnix : Int) (dataRange : String) (rangeSecond : Int)
  deriving DecidableEq, Repr

/-- What `syncProjectUsageDate` does outside the process, in order. -/
inductive Effect where
  | query (c : SummaryCall)
  | setProjectUsage (req : CollectorSetProjectUsage)
  deriving DecidableEq, Repr

/-- The `Worker`: its location and what its `PromClient` answers to a scalar
query (`Except.error` is a non-nil `err`). -/
structure Worker where
  Location : String
  PromClient : SummaryCall → Except String String

/-- The locals of one run of `syncProjectUsageDate` and its effects. -/
structure DateRun where
  t : Time
  et : Time
  rangeSeconds : Int
  effects : List Effect
  deriving DecidableEq, Repr

/-- The first lines of `syncProjectUsageDate`: `n` is `now`, replaced by `et`
when `now` is before `et`; the result is `int64(n.Sub(t) / time.Second)`. -/
def rangeSecondsOf (t now : Time) : Int :=
  let et := t.AddDays 1
  let n := if now.Before et then et else now
  Int.tdiv (n.Sub t) Time.Second

/-- Go `Worker.syncProjectUsageDate`. -/
def syncProjectUsageDate (w : Worker) (p : CollectorProject) (t now : Time) : DateRun :=
  let et := t.AddDays 1
  let days := "1d"
  let rangeSeconds := rangeSecondsOf t now
  let req : CollectorSetProjectUsage :=
    { Location := w.Location, ProjectID := p.ID, At := t, Resources := [] }
  let run (effects : List Effect) : DateRun := ⟨t, et, rangeSeconds, effects⟩
  -- cpu usage
  let c1 := SummaryCall.SummaryCPUUsage p.ID et.Unix days rangeSeconds
  let tr := [Effect.query c1]
  match w.PromClient c1 with
  | .error _ => run tr
  | .ok value =>
  let req : CollectorSetProjectUsage := { req with Resources := req.Resources ++ [CollectorProjectUsageResource.mk "cpu_usage" value] }
  -- cpu
  let c2 := SummaryCall.SummaryCPU p.ID et.Unix days rangeSeconds
  let tr := tr ++ [Effect.query c2]
  match w.PromClient c2 with
  | .error _ => run tr
  | .ok value =>
  let req : CollectorSetProjectUsage := { req with Resources := req.Resources ++ [CollectorProjectUsageResource.mk "cpu" value] }
  -- memory
  let c3 := SummaryCall.SummaryMemory p.ID et.Unix days rangeSeconds
  let tr := tr ++ [Effect.query c3]
  match w.PromClient c3 with
  | .error _ => run tr
  | .ok value =>
  let req : CollectorSetProjectUsage := { req with Resources := req.Resources ++ [CollectorProjectUsageResource.mk "memory" value] }
  -- egress
  let c4 := SummaryCall.SummaryEgress p.ID et.Unix days
  let tr := tr ++ [Effect.query c4]
  match w.PromClient c4 with
  | .error _ => run tr
  | .ok value =>
  let req : CollectorSetProjectUsage := { req with Resources := req.Resources ++ [CollectorProjectUsageResource.mk "egress" value] }
  -- disk
  let c5 := SummaryCall.SummaryDisk p.ID et.Unix days rangeSeconds
  let tr := tr ++ [Effect.query c5]
  match w.PromClient c5 with
  | .error _ => run tr
  | .ok value =>
  let req : CollectorSetProjectUsage := { req with Resources := req.Resources ++ [CollectorProjectUsageResource.mk "disk" value] }
  -- replica
  let c6 := SummaryCall.SummaryReplica p.ID et.Unix days rangeSeconds
  let tr := tr ++ [Effect.query c6]
  match w.PromClient c6 with
  | .error _ => run tr
  | .ok value =>
  let req : CollectorSetProjectUsage := { req with Resources := req.Resources ++ [CollectorProjectUsageResource.mk "replica" value] }
  if req.Resources.length = 0 then run tr
  else run (tr ++ [Effect.setProjectUsage req])

/-- Go `Worker.syncProjectUsage` at the instant `now` returned by
`time.Now()`: the runs of `syncProjectUsageDate`, in call order. -/
def syncProjectUsage (w : Worker) (p : CollectorProject) (now : Time) : List DateRun :=
  let t := Time.Date now.civilDay
  -- calculate yesterday, if time < 5am
  let runs :=
    if now.Hour ≤ 5 then
      let yesterday := t.AddDays (-1)
      [syncProjectUsageDate w p yesterday now]
    else []
  -- calculate today
  runs ++ [syncProjectUsageDate w p t now]

/-- The six scalar queries of one window, in the order `syncProjectUsageDate`
lists them: cpu_usage, cpu, memory, egress, disk, replica. -/
def summaryCalls (p : CollectorProject) (t now : Time) : List SummaryCall :=
  let et := t.AddDays 1
  let r := rangeSecondsOf t now
  [ .SummaryCPUUsage p.ID et.Unix "1d" r, .SummaryCPU p.ID et.Unix "1d" r,
    .SummaryMemory p.ID et.Unix "1d" r, .SummaryEgress p.ID et.Unix "1d",
    .SummaryDisk p.ID et.Unix "1d" r, .SummaryReplica p.ID et.Unix "1d" r ]

/-- A `PromClient` whose egress query fails and whose other queries answer. -/
def egressDown : SummaryCall → Except String String
  | .SummaryEgress _ _ _ => .error "timeout"
  | _ => .ok "1"

/-! ## `regexp` -/

/-- The character classes the patterns of `main.go` use, as `regexp` reads
them under its default flags. -/
inductive CharClass where
  /-- The class `.`: any character but the line feed. -/
  | anyNotNL
  /-- The class `\d`: an ASCII decimal digit. -/
  | digit
  /-- The class `[^-]`: any character but the hyphen (line feed included). -/
  | notHyphen
  deriving DecidableEq, Repr

/-- Whether a character belongs to a class. -/
def CharClass.accepts : CharClass → Char → Bool
  | .anyNotNL, c => c != Char.ofNat 10
  | .digit, c => decide ('0' ≤ c) && decide (c ≤ '9')
  | .notHyphen, c => c != '-'

/-- One piece of a pattern: a literal character, or a greedy `x+` over a class,
which may be wrapped in a capture group. -/
inductive Piece where
  | lit (c : Char)
  | plus (cls : CharClass) (capture : Bool)
  deriving DecidableEq, Repr

/-- A pattern `^ p1 p2 ... pn $`: the pieces between the two anchors. -/
abbrev Regexp := List Piece

/-- Greedy `x+` followed by the rest of the pattern `k`: one character of the
class, then preferably more of them, and only when that fails the rest. The
result is the text the `+` consumed and the captures of the rest. -/
def matchPlus (cls : CharClass) (k : List Char → Option (List (List Char))) :
    List Char → Option (List Char × List (List Char))
  | [] => none
  | c :: s =>
    if cls.accepts c then
      match matchPlus cls k s with
      | some (w, caps) => some (c :: w, caps)
      | none =>
        match k s with
        | some caps => some ([c], caps)
        | none => none
    else none

/-- Leftmost-first (backtracking order) match of the pieces against the whole
of the remaining text; the result lists the captured groups in order. -/
def matchPieces : Regexp → List Char → Option (List (List Char))
  | [], s => if s.isEmpty then some [] else none
  | .lit c :: ps, s =>
    match s with
    | [] => none
    | x :: rest => if x = c then matchPieces ps rest else none
  | .plus cls capture :: ps, s =>
    match matchPlus cls (matchPieces ps) s with
    | some (w, caps) => some (if capture then w :: caps else caps)
    | none => none

/-- Go `re.FindAllStringSubmatch(s, -1)` for a pattern anchored by `^` and `$`:
at most one match, which starts at offset 0; a match is the matched text
followed by the text of each capture group. -/
def FindAllStringSubmatch (re : Regexp) (s : String) : List (List String) :=
  match matchPieces re s.data with
  | some caps => [s :: caps.map String.mk]
  | none => []

/-- The pattern `^(.+)-(\d+)-[^-]+-[^-]+$`. -/
def rePodNameProject : Regexp :=
  [.plus .anyNotNL true, .lit '-', .plus .digit true, .lit '-', .plus .notHyphen false,
   .lit '-', .plus .notHyphen false]

/-- The pattern `^(.+)-(\d+)$`. -/
def reServiceNameProject : Regexp := [.plus .anyNotNL true, .lit '-', .plus .digit true]

/-- The pattern `^(.+)-(\d+)$`. -/
def reVolumeNameProject : Regexp := [.plus .anyNotNL true, .lit '-', .plus .digit true]

/-! ## `strconv` -/

/-- The two kinds of `strconv.NumError`. -/
inductive NumError where
  | ErrRange
  | ErrSyntax
  deriving DecidableEq, Repr

/-- An ASCII decimal digit. -/
def isDigit (c : Char) : Bool := decide ('0' ≤ c) && decide (c ≤ '9')

/-- The value `c - '0'` of a decimal digit. -/
def digitVal (c : Char) : Nat := c.toNat - 48

/-- The largest `uint64`. -/
def maxUint64 : Nat := 2 ^ 64 - 1

/-- The loop of `strconv.ParseUint(s, 10, 64)` over the bytes of `s`, with the
value `n` read so far. A byte that is no decimal digit is a syntax error; the
loop returns `maxUint64` and a range error as soon as the value overflows. -/
def parseUintLoop : List Char → Nat → Nat × Option NumError
  | [], n => (n, none)
  | c :: cs, n =>
    if isDigit c then
      if n ≥ maxUint64 / 10 + 1 then (maxUint64, some .ErrRange)
      else
        let n1 := n * 10 + digitVal c
        if n1 > maxUint64 then (maxUint64, some .ErrRange) else parseUintLoop cs n1
    else (0, some .ErrSyntax)

/-- Go `strconv.ParseUint(s, 10, 64)`. -/
def ParseUint (s : List Char) : Nat × Option NumError :=
  if s.isEmpty then (0, some .ErrSyntax) else parseUintLoop s 0

/-- Go `strconv.ParseInt(s, 10, 64)`: the value and the error (`none` is a nil
error). On a range error the value is the nearest end of `int64`. -/
def ParseInt (s : String) : Int × Option NumError :=
  match s.data with
  | [] => (0, some .ErrSyntax)
  | c :: cs =>
    let neg := decide (c = '-')
    let body := if c = '+' ∨ c = '-' then cs else c :: cs
    match ParseUint body with
    | (_, some .ErrSyntax) => (0, some .ErrSyntax)
    | (un, _) =>
      let cutoff : Nat := 2 ^ 63
      if neg = false ∧ un ≥ cutoff then ((cutoff : Int) - 1, some .ErrRange)
      else if neg = true ∧ un > cutoff then (-(cutoff : Int), some .ErrRange)
      else (if neg then -(un : Int) else (un : Int), none)

/-- A `float64`: a finite value `(-1)^neg * mant * 2^exp`, an infinity or a
NaN. -/
inductive Float64 where
  | finite (neg : Bool) (mant : Nat) (exp : Int)
  | inf (neg : Bool)
  | nan
  deriving DecidableEq, Repr

/-- The zero value of `float64`. -/
def Float64.zero : Float64 := .finite false 0 0

/-- Whether a `float64` compares equal to 0. -/
def Float64.isZero : Float64 → Bool
  | .finite _ m _ => m == 0
  | _ => false

/-- The number of binary digits of `n`; `fuel` bounds the recursion and `n`
itself is enough of it. -/
def bitLen : Nat → Nat → Nat
  | 0, _ => 0
  | fuel + 1, n => if n = 0 then 0 else bitLen fuel (n / 2) + 1

/-- The positive rational `n / d` rounded to the nearest `float64`, ties to
even, as `mant * 2^exp`; `none` when the rounded value is beyond the largest
finite `float64`, that is when `n / d` is at least `2^1024 - 2^970`, the
largest finite value plus half a unit in its last place. -/
def roundFloat64 (n d : Nat) : Option (Nat × Int) :=
  if n ≥ d * (2 ^ 1024 - 2 ^ 970) then none else
  let e0 : Int := (bitLen n n : Int) - (bitLen d d : Int)
  let ge (e : Int) : Bool :=
    if e ≥ 0 then decide (n ≥ d * 2 ^ e.toNat) else decide (n * 2 ^ (-e).toNat ≥ d)
  -- `e` is the binary exponent of `n / d`: `2^e ≤ n / d < 2^(e+1)`
  let e : Int := if ge e0 then e0 else e0 - 1
  -- the unit in the last place; below `2^(-1022)` the values are subnormal
  let ulp : Int := max e (-1022) - 52
  let num : Nat := if ulp ≥ 0 then n else n * 2 ^ (-ulp).toNat
  let den : Nat := if ulp ≥ 0 then d * 2 ^ ulp.toNat else d
  let q := num / den
  let r := num % den
  let m := if 2 * r < den then q else if 2 * r > den then q + 1 else if q % 2 = 0 then q else q + 1
  some (m, ulp)

/-- Go `commonPrefixLenIgnoreCase(s, pre)` for a lower-case `pre`. -/
def commonPrefixLenIgnoreCase : List Char → List Char → Nat
  | c :: s, p :: ps =>
    let c := if 'A' ≤ c ∧ c ≤ 'Z' then Char.ofNat (c.toNat + 32) else c
    if c = p then 1 + commonPrefixLenIgnoreCase s ps else 0
  | _, _ => 0

/-- Go `special(s)`: an optionally signed "inf" or "infinity", or "nan", at the
start of `s`, in any case; the value and the number of bytes read. -/
def special (s : List Char) : Option (Float64 × Nat) :=
  match s with
  | [] => none
  | c :: rest =>
    if c = '+' ∨ c = '-' then
      let n := commonPrefixLenIgnoreCase rest "infinity".data
      let n := if 3 < n ∧ n < 8 then 3 else n
      if n = 3 ∨ n = 8 then some (.inf (decide (c = '-')), 1 + n) else none
    else if c = 'i' ∨ c = 'I' then
      let n := commonPrefixLenIgnoreCase s "infinity".data
      let n := if 3 < n ∧ n < 8 then 3 else n
      if n = 3 ∨ n = 8 then some (.inf false, n) else none
    else if c = 'n' ∨ c = 'N' then
      if commonPrefixLenIgnoreCase s "nan".data = 3 then some (.nan, 3) else none
    else none

/-- A hexadecimal digit that is a letter, in either case. -/
def isHexLetter (c : Char) : Bool :=
  (decide ('a' ≤ c) && decide (c ≤ 'f')) || (decide ('A' ≤ c) && decide (c ≤ 'F'))

/-- The value of a hexadecimal letter: `lower(c) - 'a' + 10`. -/
def hexLetterVal (c : Char) : Nat := if 'a' ≤ c then c.toNat - 97 + 10 else c.toNat - 65 + 10

/-- The variables of the digit loop of `readFloat`. The mantissa keeps every
digit (the code keeps 19 and re-reads the text when digits were dropped). -/
structure Mantissa where
  underscores : Bool := false
  sawdot : Bool := false
  sawdigits : Bool := false
  nd : Nat := 0
  dp : Int := 0
  mantissa : Nat := 0
  deriving DecidableEq, Repr

/-- The digit loop of `readFloat`; returns the state and the unread text. -/
def readDigits (hex : Bool) : List Char → Mantissa → Mantissa × List Char
  | [], st => (st, [])
  | c :: s, st =>
    if c = '_' then readDigits hex s { st with underscores := true }
    else if c = '.' then
      if st.sawdot then (st, c :: s)
      else readDigits hex s { st with sawdot := true, dp := st.nd }
    else if isDigit c then
      if c = '0' ∧ st.nd = 0 then
        -- ignore leading zeros
        readDigits hex s { st with sawdigits := true, dp := st.dp - 1 }
      else
        readDigits hex s { st with
          sawdigits := true, nd := st.nd + 1,
          mantissa := st.mantissa * (if hex then 16 else 10) + digitVal c }
    else if hex ∧ isHexLetter c then
      readDigits hex s { st with
        sawdigits := true, nd := st.nd + 1, mantissa := st.mantissa * 16 + hexLetterVal c }
    else (st, c :: s)

/-- The exponent loop of `readFloat`: digits and underscores; the exponent
stops growing once it has reached 10000. -/
def readExponent : List Char → Nat → Bool → Nat × Bool × List Char
  | [], e, u => (e, u, [])
  | c :: s, e, u =>
    if c = '_' then readExponent s e true
    else if isDigit c then readExponent s (if e < 10000 then e * 10 + digitVal c else e) u
    else (e, u, c :: s)

/-- The loop of `underscoreOK`; `saw` is the kind of the last byte: `'0'` for
a digit or the base marker, `'_'`, `'!'` for another byte, `'^'` at the start. -/
def underscoreLoop (hex : Bool) : List Char → Char → Bool
  | [], saw => saw != '_'
  | c :: s, saw =>
    if isDigit c || (hex && isHexLetter c) then underscoreLoop hex s '0'
    else if c = '_' then
      if saw != '0' then false else underscoreLoop hex s '_'
    else if saw = '_' then false
    else underscoreLoop hex s '!'

/-- Go `underscoreOK(s)`: underscores only between digits, or between the base
marker and a digit. -/
def underscoreOK (s : List Char) : Bool :=
  let s := match s with
    | c :: rest => if c = '-' ∨ c = '+' then rest else s
    | [] => s
  match s with
  | '0' :: m :: rest =>
    if m = 'b' ∨ m = 'B' ∨ m = 'o' ∨ m = 'O' ∨ m = 'x' ∨ m = 'X' then
      underscoreLoop (decide (m = 'x' ∨ m = 'X')) rest '0'
    else underscoreLoop false s '^'
  | _ => underscoreLoop false s '^'

/-- What `readFloat` returns when it succeeds: the number read is
`(-1)^neg * mantissa * base^exp` with base 2 if `hex` and 10 otherwise. -/
structure ReadFloat where
  mantissa : Nat
  exp : Int
  neg : Bool
  hex : Bool
  rest : List Char
  deriving DecidableEq, Repr

/-- Go `readFloat(s)`; `none` is `ok = false`. -/
def readFloat (s : List Char) : Option ReadFloat :=
  match s with
  | [] => none
  | c :: afterSign =>
    -- optional sign
    let neg := decide (c = '-')
    let s1 := if c = '+' ∨ c = '-' then afterSign else s
    -- digits
    let hex : Bool := match s1 with
      | '0' :: x :: _ :: _ => decide (x = 'x' ∨ x = 'X')
      | _ => false
    let s2 := if hex then s1.drop 2 else s1
    let (st, s3) := readDigits hex s2 {}
    if st.sawdigits = false then none else
    let dp : Int := if st.sawdot then st.dp else st.nd
    let dp : Int := if hex then dp * 4 else dp
    let ndMant : Int := if hex then st.nd * 4 else st.nd
    -- optional exponent moves decimal point
    let isExpChar (e : Char) : Bool :=
      if hex then decide (e = 'p' ∨ e = 'P') else decide (e = 'e' ∨ e = 'E')
    let finish (dp : Int) (underscores : Bool) (rest : List Char) : Option ReadFloat :=
      let exp : Int := if st.mantissa ≠ 0 then dp - ndMant else 0
      if underscores ∧ underscoreOK (s.take (s.length - rest.length)) = false then none
      else some ⟨st.mantissa, exp, neg, hex, rest⟩
    match s3 with
    | e :: s4 =>
      if isExpChar e then
        match s4 with
        | [] => none
        | g :: s5 =>
          let esign : Int := if g = '-' then -1 else 1
          let s6 := if g = '+' ∨ g = '-' then s5 else s4
          match s6 with
          | [] => none
          | d :: _ =>
            if isDigit d = false then none else
            let (e, u, rest) := readExponent s6 0 st.underscores
            finish (dp + e * esign) u rest
      else if hex then none
      else finish dp st.underscores s3
    | [] => if hex then none else finish dp st.underscores s3

/-- Go `atof64(s)`: the value, the unread text and the error. The conversion of
the number read is the correctly rounded one. -/
def atof64 (s : List Char) : Float64 × List Char × Option NumError :=
  match special s with
  | some (val, n) => (val, s.drop n, none)
  | none =>
    match readFloat s with
    | none => (Float64.zero, s, some .ErrSyntax)
    | some r =>
      if r.mantissa = 0 then (.finite r.neg 0 0, r.rest, none) else
      let base : Nat := if r.hex then 2 else 10
      let n : Nat := if r.exp ≥ 0 then r.mantissa * base ^ r.exp.toNat else r.mantissa
      let d : Nat := if r.exp ≥ 0 then 1 else base ^ (-r.exp).toNat
      match roundFloat64 n d with
      | some (m, e) => (.finite r.neg m e, r.rest, none)
      | none => (.inf r.neg, r.rest, some .ErrRange)

/-- Go `strconv.ParseFloat(s, 64)`: the value and the error (`none` is a nil
error). -/
def ParseFloat (s : String) : Float64 × Option NumError :=
  match atof64 s.data with
  | (f, rest, err) =>
    if rest ≠ [] ∧ err ≠ some .ErrSyntax then (Float64.zero, some .ErrSyntax) else (f, err)




/-- Go `int64(f)` for a `float64`: the value truncated toward zero. For a value
outside `int64` the result depends on the platform; this is the one of amd64. -/
def Float64.toInt64 : Float64 → Int
  | .finite neg m e =>
    let a : Nat := if e ≥ 0 then m * 2 ^ e.toNat else m / 2 ^ (-e).toNat
    let v : Int := if neg then -(a : Int) else (a : Int)
    if -(2 ^ 63) ≤ v ∧ v < 2 ^ 63 then v else -(2 ^ 63)
  | _ => -(2 ^ 63)

/-! ## The metric query gateway (`prom/prom.go`) -/

/-- A value decoded by `encoding/json` into `any`. -/
inductive Any where
  | null
  | bool (b : Bool)
  | number (f : Float64)
  | string (s : String)
  | array (xs : List Any)
  | object (fields : List (String × Any))

/-- How a call ends: with a value and a nil error, with a non-nil error, or
with a run-time panic of the calling goroutine. -/
inductive Outcome (α : Type) where
  | ok (a : α)
  | error (msg : String)
  | panic
  deriving DecidableEq, Repr

/-- One entry of `Data.Result` in `queryVectorValue`. -/
structure ScalarResult where
  Value : List Any

/-- The envelope `queryVectorValue` decodes. -/
structure ScalarEnvelope where
  Status : String
  ResultType : String
  Result : List ScalarResult

/-- One entry of `Data.Result` in the vector queries; `Metric` is a
`map[string]string`, read with `""` for an absent key. -/
structure VectorResult where
  Metric : List (String × String)
  Value : List Any

/-- The envelope the vector queries decode; an entry of `Result` is a pointer,
`none` when the JSON entry is `null`. -/
structure VectorEnvelope where
  Status : String
  ResultType : String
  Result : List (Option VectorResult)

/-- Go `m[key]` on a `map[string]string`. -/
def mapIndex (m : List (String × String)) (key : String) : String :=
  (m.lookup key).getD ""

/-- Go `Client.queryVectorValue` from the reply on: `resp` is what `c.do`
followed by `json.Unmarshal` gives, an error or the decoded envelope. -/
def queryVectorValue (resp : Except String ScalarEnvelope) : Outcome String :=
  match resp with
  | .error err => .error err
  | .ok p =>
    if p.Status ≠ "success" then .error "status not success"
    else if p.Result.length ≠ 1 then .error "result data length not equal to 1"
    else
      match p.Result with
      | r :: _ =>
        if r.Value.length ≠ 2 then .error "result data at index 0 value length not equal to 2"
        else
          match r.Value with
          | [_, .string s] => .ok s
          | _ => .error "can not cast result data to string"
      | [] => .error "result data length not equal to 1"

/-- One `prom.PodVector`. -/
structure PodVector where
  Pod : String
  Service : String
  Time : Int
  Value : String
  deriving DecidableEq, Repr

/-- The loop of `queryPodVectors` over the result entries, `vs` being the
samples appended so far. -/
def queryPodVectorsLoop : List (Option VectorResult) → List PodVector → Outcome (List PodVector)
  | [], vs => .ok vs
  -- `x.Metric` on a nil `x`: nil pointer dereference
  | none :: _, _ => .panic
  | some x :: rs, vs =>
    let pod := mapIndex x.Metric "pod"
    let service := mapIndex x.Metric "service_name"
    if x.Value.length ≠ 2 then queryPodVectorsLoop rs vs
    else if pod = "" ∧ service = "" then queryPodVectorsLoop rs vs
    else
      match x.Value with
      | [.number f, .string s] =>
        queryPodVectorsLoop rs (vs ++ [{ Pod := pod, Service := service, Time := f.toInt64, Value := s }])
      -- `x.Value[0].(float64)` or `x.Value[1].(string)` on a value of another type
      | _ => .panic

/-- Go `Client.queryPodVectors` from the reply on. -/
def queryPodVectors (resp : Except String VectorEnvelope) : Outcome (List PodVector) :=
  match resp with
  | .error err => .error err
  | .ok p =>
    if p.Status ≠ "success" then .error "not ok"
    else queryPodVectorsLoop p.Result []

/-- One `prom.VolumeVector`. -/
structure VolumeVector where
  Volume : String
  Time : Int
  Value : String
  deriving DecidableEq, Repr

/-- The loop of `queryVolumeVectors` over the result entries. -/
def queryVolumeVectorsLoop :
    List (Option VectorResult) → List VolumeVector → Outcome (List VolumeVector)
  | [], vs => .ok vs
  -- `x.Metric` on a nil `x`: nil pointer dereference
  | none :: _, _ => .panic
  | some x :: rs, vs =>
    let volume := mapIndex x.Metric "persistentvolumeclaim"
    if x.Value.length ≠ 2 then queryVolumeVectorsLoop rs vs
    else if volume = "" then queryVolumeVectorsLoop rs vs
    else
      match x.Value with
      | [.number f, .string s] =>
        queryVolumeVectorsLoop rs (vs ++ [{ Volume := volume, Time := f.toInt64, Value := s }])
      -- `x.Value[0].(float64)` or `x.Value[1].(string)` on a value of another type
      | _ => .panic

/-- Go `Client.queryVolumeVectors` from the reply on. -/
def queryVolumeVectors (resp : Except String VectorEnvelope) : Outcome (List VolumeVector) :=
  match resp with
  | .error err => .error err
  | .ok p =>
    if p.Status ≠ "success" then .error "not ok"
    else queryVolumeVectorsLoop p.Result []

/-! ## The deployment and disk usage collector (`main.go`) -/

/-- One `api.CollectorDeploymentUsageItem`. -/
structure CollectorDeploymentUsageItem where
  ProjectID : Int
  DeploymentName : String
  Name : String
  Pod : String
  Value : Float64
  At : Int
  deriving DecidableEq, Repr

/-- The `api.CollectorSetDeploymentUsage` request. -/
structure CollectorSetDeploymentUsage where
  Location : String
  List : List CollectorDeploymentUsageItem
  deriving DecidableEq, Repr

/-- One `api.CollectorDiskUsageItem`. -/
structure CollectorDiskUsageItem where
  ProjectID : Int
  DiskName : String
  Name : String
  Value : Float64
  At : Int
  deriving DecidableEq, Repr

/-- The `api.CollectorSetDiskUsage` request. -/
structure CollectorSetDiskUsage where
  Location : String
  List : List CollectorDiskUsageItem
  deriving DecidableEq, Repr

/-- How `syncVector` and `syncDiskVector` end: the request handed to the
submission call, when the call is made, and the error returned (`none` is
nil). -/
structure SyncResult (Req : Type) where
  submitted : Option Req
  err : Option String
  deriving DecidableEq, Repr

/-- The body of the loop of `syncVector` for the sample `v`: the value of
`req.List` after the iteration, `list` being its value before. -/
def syncVectorBody (name : String) (list : List CollectorDeploymentUsageItem) (v : PodVector) :
    List CollectorDeploymentUsageItem :=
  let at_ := v.Time
  let choice : List (List String) × String :=
    if v.Pod ≠ "" then (FindAllStringSubmatch rePodNameProject v.Pod, v.Pod)
    else if v.Service ≠ "" then (FindAllStringSubmatch reServiceNameProject v.Service, v.Service)
    else ([], "")
  let ns := choice.1
  let pod := choice.2
  if ns.length ≠ 1 ∨ (ns.getD 0 []).length ≠ 3 then list
  else
    let projectID := (ParseInt ((ns.getD 0 []).getD 2 "")).1
    if projectID = 0 then list
    else
      let f := (ParseFloat v.Value).1
      list ++ [{ ProjectID := projectID, DeploymentName := (ns.getD 0 []).getD 1 "",
                 Name := name, Pod := pod, Value := f, At := at_ }]

/-- The closure `syncVector` of `syncDeploymentUsage`: `f` is what the vector
query returned and `submit` what `SetDeploymentUsage` answers. -/
def syncVector (location : String)
    (submit : CollectorSetDeploymentUsage → Except String Unit)
    (name : String) (f : Outcome (List PodVector)) :
    Outcome (SyncResult CollectorSetDeploymentUsage) :=
  match f with
  | .panic => .panic
  | .error err => .ok ⟨none, some err⟩
  | .ok vs =>
    let req : CollectorSetDeploymentUsage :=
      { Location := location, List := vs.foldl (syncVectorBody name) [] }
    if req.List.length = 0 then .ok ⟨none, none⟩
    else
      match submit req with
      | .error err => .ok ⟨some req, some err⟩
      | .ok _ => .ok ⟨some req, none⟩

/-- The body of the loop of `syncDiskVector` for the sample `v`. -/
def syncDiskVectorBody (name : String) (list : List CollectorDiskUsageItem) (v : VolumeVector) :
    List CollectorDiskUsageItem :=
  let at_ := v.Time
  let ns := FindAllStringSubmatch reVolumeNameProject v.Volume
  if ns.length ≠ 1 ∨ (ns.getD 0 []).length ≠ 3 then list
  else
    let projectID := (ParseInt ((ns.getD 0 []).getD 2 "")).1
    if projectID = 0 then list
    else
      let f := (ParseFloat v.Value).1
      list ++ [{ ProjectID := projectID, DiskName := (ns.getD 0 []).getD 1 "",
                 Name := name, Value := f, At := at_ }]

/-- The closure `syncDiskVector` of `syncDeploymentUsage`. -/
def syncDiskVector (location : String)
    (submit : CollectorSetDiskUsage → Except String Unit)
    (name : String) (f : Outcome (List VolumeVector)) :
    Outcome (SyncResult CollectorSetDiskUsage) :=
  match f with
  | .panic => .panic
  | .error err => .ok ⟨none, some err⟩
  | .ok vs =>
    let req : CollectorSetDiskUsage :=
      { Location := location, List := vs.foldl (syncDiskVectorBody name) [] }
    if req.List.length = 0 then .ok ⟨none, none⟩
    else
      match submit req with
      | .error err => .ok ⟨some req, some err⟩
      | .ok _ => .ok ⟨some req, none⟩

/-- The value of a run of decimal digits. -/
def decimalValue (ds : List Char) : Nat := ds.foldl (fun n c => n * 10 + digitVal c) 0

/-- The text `s` is `L-D-T1-T2`: `L` non-empty without line feed, `D` a
non-empty run of decimal digits, `T1` and `T2` non-empty without hyphen. -/
def PodForm (s L D T1 T2 : List Char) : Prop :=
  s = L ++ '-' :: (D ++ '-' :: (T1 ++ '-' :: T2))
    ∧ L ≠ [] ∧ (∀ c ∈ L, c ≠ Char.ofNat 10)
    ∧ D ≠ [] ∧ (∀ c ∈ D, isDigit c = true)
    ∧ T1 ≠ [] ∧ '-' ∉ T1 ∧ T2 ≠ [] ∧ '-' ∉ T2

/-- The text `s` is `L-D`: `L` non-empty without line feed and `D` a non-empty
run of decimal digits. -/
def VolumeForm (s L D : List Char) : Prop :=
  s = L ++ '-' :: D ∧ L ≠ [] ∧ (∀ c ∈ L, c ≠ Char.ofNat 10)
    ∧ D ≠ [] ∧ (∀ c ∈ D, isDigit c = true)

/-! ## The naming grammars, written from the spec -/

/-- The size of the admission gate: `semaphore.NewWeighted(10)`. -/
def semSize : Nat := 10

/-- A state of one execution of `RunProject`, between two atomic steps of its
goroutines. `started` and `released` only count events; no step reads them. -/
structure FanOut where
  /-- The projects of `l.Projects` the loop has not reached yet. -/
  pending : List CollectorProject
  /-- The project for which `sem.Acquire(ctx, 1)` has returned and the `go`
  statement has not run yet. -/
  admitted : Option CollectorProject
  /-- The goroutines started whose `syncProjectUsage` has not returned. -/
  running : List CollectorProject
  /-- The goroutines whose `syncProjectUsage` has returned and whose deferred
  `sem.Release(1)` has not run yet. -/
  releasing : List CollectorProject
  /-- The weight the semaphore has handed out (`cur` of `semaphore.Weighted`). -/
  cur : Nat
  /-- How many `go` statements have run. -/
  started : Nat
  /-- How many `sem.Release(1)` calls have run. -/
  released : Nat
  deriving DecidableEq, Repr

/-- The atomic steps of an execution: of the loop (`acquire`, `spawn`) and of
the goroutine at a position of `running` or `releasing`. -/
inductive Action where
  /-- The call `sem.Acquire(ctx, 1)` of the loop returns. -/
  | acquire
  /-- The loop runs its `go` statement for the admitted project. -/
  | spawn
  /-- In the goroutine at position `i` of `running`, `syncProjectUsage` returns. -/
  | finish (i : Nat)
  /-- The goroutine at position `i` of `releasing` runs its deferred
  `sem.Release(1)` and ends. -/
  | release (i : Nat)
  deriving DecidableEq, Repr

/-- One step; `none` when the step cannot be taken in the state. `Acquire`
returns only when a unit of weight is free (`size - cur >= 1`; the loop is the
only caller, so no other waiter is queued) and never with an error, the
context being `context.Background()`. -/
def step : Action → FanOut → Option FanOut
  | .acquire, s =>
    match s.admitted, s.pending with
    | none, p :: ps =>
      if semSize - s.cur ≥ 1 then
        some { s with pending := ps, admitted := some p, cur := s.cur + 1 }
      else none
    | _, _ => none
  | .spawn, s =>
    match s.admitted with
    | some p =>
      some { s with admitted := none, running := s.running ++ [p], started := s.started + 1 }
    | none => none
  | .finish i, s =>
    match s.running[i]? with
    | some p => some { s with running := s.running.eraseIdx i, releasing := s.releasing ++ [p] }
    | none => none
  | .release i, s =>
    match s.releasing[i]? with
    | some _ =>
      some { s with releasing := s.releasing.eraseIdx i, cur := s.cur - 1,
                    released := s.released + 1 }
    | none => none

/-- The steps of a schedule, one after the other. -/
def exec : List Action → FanOut → Option FanOut
  | [], s => some s
  | a :: rest, s =>
    match step a s with
    | some s1 => exec rest s1
    | none => none

/-- Go `Worker.RunProject` up to the loop: `location` is what the discovery
call `Collector().Location` returned. On an error the function returns and
nothing is pending; otherwise the loop is about to range over `l.Projects`
with a fresh semaphore. -/
def RunProject (location : Except String (List CollectorProject)) : FanOut :=
  match location with
  | .error _ => ⟨[], none, [], [], 0, 0, 0⟩
  | .ok projects => ⟨projects, none, [], [], 0, 0, 0⟩

/-- Twelve discovered projects. -/
def twelveProjects : List CollectorProject :=
  [⟨1⟩, ⟨2⟩, ⟨3⟩, ⟨4⟩, ⟨5⟩, ⟨6⟩, ⟨7⟩, ⟨8⟩, ⟨9⟩, ⟨10⟩, ⟨11⟩, ⟨12⟩]

/-- The loop admits and starts ten units while no goroutine makes a step. -/
def tenStarts : List Action :=
  [.acquire, .spawn, .acquire, .spawn, .acquire, .spawn, .acquire, .spawn, .acquire, .spawn,
   .acquire, .spawn, .acquire, .spawn, .acquire, .spawn, .acquire, .spawn, .acquire, .spawn]

/-- The state after `tenStarts` on twelve projects: ten units run and the
projects 11 and 12 wait for the gate. -/
def tenRunning : FanOut :=
  ⟨[⟨11⟩, ⟨12⟩], none, [⟨1⟩, ⟨2⟩, ⟨3⟩, ⟨4⟩, ⟨5⟩, ⟨6⟩, ⟨7⟩, ⟨8⟩, ⟨9⟩, ⟨10⟩], [], 10, 10, 0⟩

set_option exponentiation.threshold 2000
set_option maxRecDepth 100000

/-! ## Theorems -/

/-! ### The project usage collector -/


theorem syncProjectUsageDate_rangeSeconds (w : Worker) (p : CollectorProject) (t now : Time) :
    (syncProjectUsageDate w p t now).rangeSeconds = rangeSecondsOf t now := by
  unfold syncProjectUsageDate
  simp only []
  repeat (first | rfl | split)


theorem rangeSecondsOf_ge (t now : Time) : 86400 ≤ rangeSecondsOf t now := by
  unfold rangeSecondsOf Time.Sub Time.Before Time.AddDays Time.maxDuration Time.minDuration
    Time.Second
  simp only []
  have key : ∀ d : Int, 86400 * 1000000000 ≤ d → 86400 ≤ Int.tdiv d 1000000000 := by
    intro d hd
    have h0 : (0 : Int) ≤ d := by omega
    rw [Int.tdiv_eq_ediv h0 (by norm_num)]
    omega
  split_ifs <;> (try apply key) <;> simp only [decide_eq_true_eq, gt_iff_lt, not_lt] at * <;>
    omega

/-- C1 (the code departs from the claim). At 1970-01-02T03:00:00Z
`syncProjectUsage` schedules yesterday's and today's window; the
`rangeSeconds` computed for yesterday's window is 97200, which is more than
86400, and the one for today's window is 86400. At every instant the
`rangeSeconds` of every scheduled window is at least 86400. -/
theorem syncProjectUsage_rangeSeconds_after_midnight (w : Worker) (p : CollectorProject) :
    (syncProjectUsage w p ⟨97200 * 1000000000, 0⟩).map DateRun.rangeSeconds = [97200, 86400]
      ∧ ¬ ((97200 : Int) ≤ 86400)
      ∧ ∀ now, ∀ run ∈ syncProjectUsage w p now, 86400 ≤ run.rangeSeconds := by
  refine ⟨?_, by decide, ?_⟩
  · have h : (⟨97200 * 1000000000, 0⟩ : Time).Hour ≤ 5 := by decide
    simp only [syncProjectUsage, h, if_true, List.map_append, List.map_cons, List.map_nil,
      syncProjectUsageDate_rangeSeconds, List.singleton_append]
    decide
  · intro now run hrun
    have hcase : ∀ t, run = syncProjectUsageDate w p t now → 86400 ≤ run.rangeSeconds := by
      intro t ht
      rw [ht, syncProjectUsageDate_rangeSeconds]
      exact rangeSecondsOf_ge t now
    by_cases h : now.Hour ≤ 5
    · simp only [syncProjectUsage, h, if_true, List.mem_append, List.mem_singleton] at hrun
      rcases hrun with hrun | hrun <;> exact hcase _ hrun
    · simp only [syncProjectUsage, h, if_false, List.nil_append, List.mem_singleton] at hrun
      exact hcase _ hrun


/-- C6. In one run of `syncProjectUsageDate`, when the queries before position
`k` (counting from 0 in the order cpu_usage, cpu, memory, egress, disk,
replica) succeed and the query at position `k` fails, the run issues exactly
the queries up to and including position `k`: no later query is issued and
`SetProjectUsage` is not invoked. -/
theorem syncProjectUsageDate_aborts_at_first_failure (w : Worker) (p : CollectorProject)
    (t now : Time) (k : Nat) (hk : k < 6)
    (hok : ∀ i c, i < k → (summaryCalls p t now)[i]? = some c → ∃ v, w.PromClient c = .ok v)
    (hfail : ∀ c, (summaryCalls p t now)[k]? = some c → ∃ e, w.PromClient c = .error e) :
    (syncProjectUsageDate w p t now).effects
        = ((summaryCalls p t now).take (k + 1)).map Effect.query
      ∧ (∀ req, Effect.setProjectUsage req ∉ (syncProjectUsageDate w p t now).effects)
      ∧ (∀ j c, k < j → (summaryCalls p t now)[j]? = some c →
          Effect.query c ∉ (syncProjectUsageDate w p t now).effects) := by
  have hmain : (syncProjectUsageDate w p t now).effects
        = ((summaryCalls p t now).take (k + 1)).map Effect.query := by
    interval_cases k
    · obtain ⟨e, he⟩ := hfail _ rfl
      simp [summaryCalls] at he
      simp [syncProjectUsageDate, summaryCalls, he]
    · obtain ⟨e, he⟩ := hfail _ rfl
      obtain ⟨v0, hv0⟩ := hok 0 _ (by decide) rfl
      simp [summaryCalls] at he hv0
      simp [syncProjectUsageDate, summaryCalls, he, hv0]
    · obtain ⟨e, he⟩ := hfail _ rfl
      obtain ⟨v0, hv0⟩ := hok 0 _ (by decide) rfl
      obtain ⟨v1, hv1⟩ := hok 1 _ (by decide) rfl
      simp [summaryCalls] at he hv0 hv1
      simp [syncProjectUsageDate, summaryCalls, he, hv0, hv1]
    · obtain ⟨e, he⟩ := hfail _ rfl
      obtain ⟨v0, hv0⟩ := hok 0 _ (by decide) rfl
      obtain ⟨v1, hv1⟩ := hok 1 _ (by decide) rfl
      obtain ⟨v2, hv2⟩ := hok 2 _ (by decide) rfl
      simp [summaryCalls] at he hv0 hv1 hv2
      simp [syncProjectUsageDate, summaryCalls, he, hv0, hv1, hv2]
    · obtain ⟨e, he⟩ := hfail _ rfl
      obtain ⟨v0, hv0⟩ := hok 0 _ (by decide) rfl
      obtain ⟨v1, hv1⟩ := hok 1 _ (by decide) rfl
      obtain ⟨v2, hv2⟩ := hok 2 _ (by decide) rfl
      obtain ⟨v3, hv3⟩ := hok 3 _ (by decide) rfl
      simp [summaryCalls] at he hv0 hv1 hv2 hv3
      simp [syncProjectUsageDate, summaryCalls, he, hv0, hv1, hv2, hv3]
    · obtain ⟨e, he⟩ := hfail _ rfl
      obtain ⟨v0, hv0⟩ := hok 0 _ (by decide) rfl
      obtain ⟨v1, hv1⟩ := hok 1 _ (by decide) rfl
      obtain ⟨v2, hv2⟩ := hok 2 _ (by decide) rfl
      obtain ⟨v3, hv3⟩ := hok 3 _ (by decide) rfl
      obtain ⟨v4, hv4⟩ := hok 4 _ (by decide) rfl
      simp [summaryCalls] at he hv0 hv1 hv2 hv3 hv4
      simp [syncProjectUsageDate, summaryCalls, he, hv0, hv1, hv2, hv3, hv4]
  refine ⟨hmain, ?_, ?_⟩
  · intro req hreq
    rw [hmain, List.mem_map] at hreq
    obtain ⟨c, _, hc⟩ := hreq
    cases hc
  · intro j c hj hc hmem
    rw [hmain] at hmem
    simp only [List.mem_map, Effect.query.injEq, exists_eq_right] at hmem
    have hj6 : j < 6 := by
      by_contra hge
      have : (summaryCalls p t now)[j]? = none := by
        apply List.getElem?_eq_none
        simp only [summaryCalls, List.length_cons, List.length_nil]
        omega
      rw [this] at hc
      cases hc
    interval_cases k <;> interval_cases j <;>
      simp [summaryCalls] at hc hmem <;> subst hc <;> simp at hmem


/-- Witness for C6: the egress query (position 3) fails after cpu_usage, cpu
and memory answered, in the window of 1970-01-01 for project 42. -/
theorem syncProjectUsageDate_aborts_at_egress :
    (syncProjectUsageDate ⟨"bkk", egressDown⟩ ⟨42⟩ (Time.Date 0) ⟨97200000000000, 0⟩).effects
        = ((summaryCalls ⟨42⟩ (Time.Date 0) ⟨97200000000000, 0⟩).take (3 + 1)).map Effect.query
      ∧ (∀ req, Effect.setProjectUsage req ∉
          (syncProjectUsageDate ⟨"bkk", egressDown⟩ ⟨42⟩ (Time.Date 0)
            ⟨97200000000000, 0⟩).effects)
      ∧ (∀ j c, 3 < j → (summaryCalls ⟨42⟩ (Time.Date 0) ⟨97200000000000, 0⟩)[j]? = some c →
          Effect.query c ∉
            (syncProjectUsageDate ⟨"bkk", egressDown⟩ ⟨42⟩ (Time.Date 0)
              ⟨97200000000000, 0⟩).effects) :=
  syncProjectUsageDate_aborts_at_first_failure ⟨"bkk", egressDown⟩ ⟨42⟩ (Time.Date 0)
    ⟨97200000000000, 0⟩ 3 (by decide)
    (by
      intro i c hi hc
      interval_cases i <;> simp [summaryCalls] at hc <;> subst hc <;> exact ⟨_, rfl⟩)
    (by
      intro c hc
      simp [summaryCalls] at hc
      subst hc
      exact ⟨_, rfl⟩)

/-! ### Patterns, `ParseInt` and attribution -/


theorem matchPlus_sound (cls : CharClass) (k : List Char → Option (List (List Char))) :
    ∀ (s w : List Char) (caps : List (List Char)), matchPlus cls k s = some (w, caps) →
      w ≠ [] ∧ (∀ c ∈ w, cls.accepts c = true) ∧ ∃ rest, s = w ++ rest ∧ k rest = some caps := by
  intro s
  induction s with
  | nil => intro w caps h; simp [matchPlus] at h
  | cons c s ih =>
    intro w caps h
    unfold matchPlus at h
    by_cases hc : cls.accepts c = true
    · simp only [hc, if_true] at h
      cases hm : matchPlus cls k s with
      | some r =>
        obtain ⟨w1, caps1⟩ := r
        simp only [hm, Option.some.injEq, Prod.mk.injEq] at h
        obtain ⟨hw, hcaps⟩ := h
        obtain ⟨_, hall, rest, hs, hk⟩ := ih w1 caps1 hm
        subst hw hcaps
        refine ⟨by simp, ?_, rest, by simp [hs], hk⟩
        intro x hx
        rcases List.mem_cons.mp hx with hx | hx
        · subst hx; exact hc
        · exact hall x hx
      | none =>
        simp only [hm] at h
        cases hk : k s with
        | none => simp [hk] at h
        | some caps1 =>
          simp only [hk, Option.some.injEq, Prod.mk.injEq] at h
          obtain ⟨hw, hcaps⟩ := h
          subst hw hcaps
          exact ⟨by simp, by simpa using hc, s, by simp, hk⟩
    · simp [hc] at h

theorem matchPlus_complete (cls : CharClass) (k : List Char → Option (List (List Char))) :
    ∀ (w rest : List Char) (caps : List (List Char)), w ≠ [] →
      (∀ c ∈ w, cls.accepts c = true) → k rest = some caps →
      ∃ r, matchPlus cls k (w ++ rest) = some r := by
  intro w
  induction w with
  | nil => intro rest caps h; exact absurd rfl h
  | cons c w ih =>
    intro rest caps _ hall hk
    have hc : cls.accepts c = true := hall c (List.mem_cons_self _ _)
    rw [List.cons_append, matchPlus]
    simp only [hc, if_true]
    by_cases hw : w = []
    · subst hw
      rw [List.nil_append]
      cases hm : matchPlus cls k rest with
      | some r => exact ⟨_, rfl⟩
      | none => simp [hk]
    · obtain ⟨r, hr⟩ := ih rest caps hw (fun x hx => hall x (List.mem_cons_of_mem _ hx)) hk
      rw [hr]
      exact ⟨_, rfl⟩

theorem matchPieces_nil (s : List Char) (caps : List (List Char)) :
    matchPieces [] s = some caps ↔ s = [] ∧ caps = [] := by
  cases s <;> simp [matchPieces, eq_comm]

theorem matchPieces_lit (c : Char) (ps : Regexp) (s : List Char) (caps : List (List Char)) :
    matchPieces (.lit c :: ps) s = some caps ↔ ∃ rest, s = c :: rest ∧ matchPieces ps rest = some caps := by
  cases s with
  | nil => simp [matchPieces]
  | cons x rest =>
    by_cases hx : x = c
    · subst hx; simp [matchPieces]
    · simp [matchPieces, hx]

theorem matchPieces_plus (cls : CharClass) (capture : Bool) (ps : Regexp) (s : List Char)
    (caps : List (List Char)) :
    matchPieces (.plus cls capture :: ps) s = some caps ↔
      ∃ w caps1, matchPlus cls (matchPieces ps) s = some (w, caps1)
        ∧ caps = if capture then w :: caps1 else caps1 := by
  simp only [matchPieces]
  cases hm : matchPlus cls (matchPieces ps) s with
  | none => simp
  | some r =>
    obtain ⟨w, caps1⟩ := r
    simp only [Option.some.injEq, Prod.mk.injEq]
    constructor
    · intro h
      exact ⟨w, caps1, ⟨rfl, rfl⟩, h.symm⟩
    · rintro ⟨w1, c1, ⟨rfl, rfl⟩, h⟩
      exact h.symm

theorem split_at_last_hyphen {a b a1 b1 : List Char}
    (h : a ++ '-' :: b = a1 ++ '-' :: b1) (hb : '-' ∉ b) (hb1 : '-' ∉ b1) :
    a = a1 ∧ b = b1 := by
  rcases List.append_eq_append_iff.mp h with ⟨x, hx, hy⟩ | ⟨x, hx, hy⟩
  · cases x with
    | nil => simp at hx hy; exact ⟨hx.symm, hy⟩
    | cons y x =>
      simp only [List.cons_append, List.cons.injEq] at hy
      exact absurd (by rw [hy.2]; simp) hb
  · cases x with
    | nil => simp at hx hy; exact ⟨hx, hy.symm⟩
    | cons y x =>
      simp only [List.cons_append, List.cons.injEq] at hy
      exact absurd (by rw [hy.2]; simp) hb1

theorem isDigit_ne_hyphen {c : Char} (h : isDigit c = true) : c ≠ '-' := by
  intro hc
  subst hc
  revert h
  decide

theorem hyphen_not_mem_digits {D : List Char} (h : ∀ c ∈ D, isDigit c = true) : '-' ∉ D :=
  fun hm => isDigit_ne_hyphen (h _ hm) rfl


theorem accepts_anyNotNL (c : Char) :
    CharClass.accepts .anyNotNL c = true ↔ c ≠ Char.ofNat 10 := by
  simp [CharClass.accepts]

theorem accepts_digit (c : Char) : CharClass.accepts .digit c = true ↔ isDigit c = true := by
  simp [CharClass.accepts, isDigit]

theorem accepts_notHyphen (c : Char) : CharClass.accepts .notHyphen c = true ↔ c ≠ '-' := by
  simp [CharClass.accepts]

theorem all_notHyphen {T : List Char} :
    (∀ c ∈ T, CharClass.accepts .notHyphen c = true) ↔ '-' ∉ T := by
  simp only [accepts_notHyphen]
  constructor
  · intro h hm; exact h _ hm rfl
  · intro h c hc hce; exact h (hce ▸ hc)

theorem matchPieces_pod_sound (s : List Char) (caps : List (List Char))
    (h : matchPieces rePodNameProject s = some caps) :
    ∃ L D T1 T2, caps = [L, D] ∧ PodForm s L D T1 T2 := by
  simp only [rePodNameProject, matchPieces_plus, matchPieces_lit] at h
  obtain ⟨L, caps1, hL, hcaps⟩ := h
  obtain ⟨hLne, hLall, rest, hs, hk⟩ := matchPlus_sound _ _ _ _ _ hL
  simp only [matchPieces_lit, matchPieces_plus] at hk
  obtain ⟨rest1, hrest, D, caps2, hD, hcaps1⟩ := hk
  obtain ⟨hDne, hDall, rest2, hs1, hk1⟩ := matchPlus_sound _ _ _ _ _ hD
  simp only [matchPieces_lit, matchPieces_plus] at hk1
  obtain ⟨rest3, hrest2, T1, caps3, hT1, hcaps2⟩ := hk1
  obtain ⟨hT1ne, hT1all, rest4, hs3, hk3⟩ := matchPlus_sound _ _ _ _ _ hT1
  simp only [matchPieces_lit, matchPieces_plus] at hk3
  obtain ⟨rest5, hrest4, T2, caps4, hT2, hcaps3⟩ := hk3
  obtain ⟨hT2ne, hT2all, rest6, hs5, hk5⟩ := matchPlus_sound _ _ _ _ _ hT2
  rw [matchPieces_nil] at hk5
  obtain ⟨hrest6, hcaps4⟩ := hk5
  refine ⟨L, D, T1, T2, ?_, ?_, hLne, ?_, hDne, ?_, hT1ne, all_notHyphen.mp hT1all, hT2ne,
    all_notHyphen.mp hT2all⟩
  · simp_all
  · subst hrest6
    rw [List.append_nil] at hs5
    rw [hs, hrest, hs1, hrest2, hs3, hrest4, hs5]
  · intro c hc; exact (accepts_anyNotNL c).mp (hLall c hc)
  · intro c hc; exact (accepts_digit c).mp (hDall c hc)

theorem matchPieces_pod_complete (s L D T1 T2 : List Char) (h : PodForm s L D T1 T2) :
    ∃ caps, matchPieces rePodNameProject s = some caps := by
  obtain ⟨hs, hLne, hLall, hDne, hDall, hT1ne, hT1, hT2ne, hT2⟩ := h
  -- from the last piece to the first
  have h4 : ∃ r, matchPlus .notHyphen (matchPieces []) (T2 ++ []) = some r :=
    matchPlus_complete _ _ T2 [] [] hT2ne (all_notHyphen.mpr hT2) (by simp [matchPieces])
  rw [List.append_nil] at h4
  obtain ⟨⟨w4, c4⟩, h4⟩ := h4
  have k4 : matchPieces [.lit '-', .plus .notHyphen false] ('-' :: T2) = some c4 := by
    rw [matchPieces_lit]
    refine ⟨T2, rfl, ?_⟩
    rw [matchPieces_plus]
    exact ⟨w4, c4, h4, by simp⟩
  obtain ⟨⟨w3, c3⟩, h3⟩ := matchPlus_complete .notHyphen _ T1 ('-' :: T2) c4 hT1ne
    (all_notHyphen.mpr hT1) k4
  have k3 : matchPieces [.lit '-', .plus .notHyphen false, .lit '-', .plus .notHyphen false]
      ('-' :: (T1 ++ '-' :: T2)) = some c3 := by
    rw [matchPieces_lit]
    refine ⟨_, rfl, ?_⟩
    rw [matchPieces_plus]
    exact ⟨w3, c3, h3, by simp⟩
  obtain ⟨⟨w2, c2⟩, h2⟩ := matchPlus_complete .digit _ D ('-' :: (T1 ++ '-' :: T2)) c3 hDne
    (fun c hc => (accepts_digit c).mpr (hDall c hc)) k3
  have k2 : matchPieces [.lit '-', .plus .digit true, .lit '-', .plus .notHyphen false,
      .lit '-', .plus .notHyphen false] ('-' :: (D ++ '-' :: (T1 ++ '-' :: T2)))
        = some (w2 :: c2) := by
    rw [matchPieces_lit]
    refine ⟨_, rfl, ?_⟩
    rw [matchPieces_plus]
    exact ⟨w2, c2, h2, by simp⟩
  obtain ⟨⟨w1, c1⟩, h1⟩ := matchPlus_complete .anyNotNL _ L
    ('-' :: (D ++ '-' :: (T1 ++ '-' :: T2))) _ hLne
    (fun c hc => (accepts_anyNotNL c).mpr (hLall c hc)) k2
  refine ⟨w1 :: c1, ?_⟩
  rw [hs, rePodNameProject, matchPieces_plus]
  exact ⟨w1, c1, h1, by simp⟩

theorem PodForm_unique {s L D T1 T2 L1 D1 U1 U2 : List Char}
    (h : PodForm s L D T1 T2) (h1 : PodForm s L1 D1 U1 U2) : L = L1 ∧ D = D1 := by
  obtain ⟨hs, _, _, _, hDall, _, hT1, _, hT2⟩ := h
  obtain ⟨hs1, _, _, _, hD1all, _, hU1, _, hU2⟩ := h1
  rw [hs] at hs1
  have e1 : L ++ '-' :: (D ++ '-' :: T1) ++ '-' :: T2
      = L1 ++ '-' :: (D1 ++ '-' :: U1) ++ '-' :: U2 := by
    simpa using hs1
  obtain ⟨e2, _⟩ := split_at_last_hyphen e1 hT2 hU2
  have e3 : L ++ '-' :: D ++ '-' :: T1 = L1 ++ '-' :: D1 ++ '-' :: U1 := by
    simpa using e2
  obtain ⟨e4, _⟩ := split_at_last_hyphen e3 hT1 hU1
  exact split_at_last_hyphen e4 (hyphen_not_mem_digits hDall) (hyphen_not_mem_digits hD1all)

theorem matchPieces_pod (s L D T1 T2 : List Char) (h : PodForm s L D T1 T2) :
    matchPieces rePodNameProject s = some [L, D] := by
  obtain ⟨caps, hcaps⟩ := matchPieces_pod_complete s L D T1 T2 h
  obtain ⟨L1, D1, U1, U2, hc, hform⟩ := matchPieces_pod_sound s caps hcaps
  obtain ⟨e1, e2⟩ := PodForm_unique h hform
  rw [hcaps, hc, e1, e2]

theorem matchPieces_volume_sound (s : List Char) (caps : List (List Char))
    (h : matchPieces reVolumeNameProject s = some caps) :
    ∃ L D, caps = [L, D] ∧ VolumeForm s L D := by
  simp only [reVolumeNameProject, matchPieces_plus, matchPieces_lit] at h
  obtain ⟨L, caps1, hL, hcaps⟩ := h
  obtain ⟨hLne, hLall, rest, hs, hk⟩ := matchPlus_sound _ _ _ _ _ hL
  simp only [matchPieces_lit, matchPieces_plus] at hk
  obtain ⟨rest1, hrest, D, caps2, hD, hcaps1⟩ := hk
  obtain ⟨hDne, hDall, rest2, hs1, hk1⟩ := matchPlus_sound _ _ _ _ _ hD
  rw [matchPieces_nil] at hk1
  obtain ⟨hrest2, hcaps2⟩ := hk1
  refine ⟨L, D, ?_, ?_, hLne, ?_, hDne, ?_⟩
  · simp_all
  · subst hrest2
    rw [List.append_nil] at hs1
    rw [hs, hrest, hs1]
  · intro c hc; exact (accepts_anyNotNL c).mp (hLall c hc)
  · intro c hc; exact (accepts_digit c).mp (hDall c hc)

theorem matchPieces_volume_complete (s L D : List Char) (h : VolumeForm s L D) :
    ∃ caps, matchPieces reVolumeNameProject s = some caps := by
  obtain ⟨hs, hLne, hLall, hDne, hDall⟩ := h
  have h2 : ∃ r, matchPlus .digit (matchPieces []) (D ++ []) = some r :=
    matchPlus_complete _ _ D [] [] hDne (fun c hc => (accepts_digit c).mpr (hDall c hc))
      (by simp [matchPieces])
  rw [List.append_nil] at h2
  obtain ⟨⟨w2, c2⟩, h2⟩ := h2
  have k2 : matchPieces [.lit '-', .plus .digit true] ('-' :: D) = some (w2 :: c2) := by
    rw [matchPieces_lit]
    refine ⟨_, rfl, ?_⟩
    rw [matchPieces_plus]
    exact ⟨w2, c2, h2, by simp⟩
  obtain ⟨⟨w1, c1⟩, h1⟩ := matchPlus_complete .anyNotNL _ L ('-' :: D) _ hLne
    (fun c hc => (accepts_anyNotNL c).mpr (hLall c hc)) k2
  refine ⟨w1 :: c1, ?_⟩
  rw [hs, reVolumeNameProject, matchPieces_plus]
  exact ⟨w1, c1, h1, by simp⟩

theorem VolumeForm_unique {s L D L1 D1 : List Char}
    (h : VolumeForm s L D) (h1 : VolumeForm s L1 D1) : L = L1 ∧ D = D1 := by
  obtain ⟨hs, _, _, _, hDall⟩ := h
  obtain ⟨hs1, _, _, _, hD1all⟩ := h1
  rw [hs] at hs1
  exact split_at_last_hyphen hs1 (hyphen_not_mem_digits hDall) (hyphen_not_mem_digits hD1all)

theorem matchPieces_volume (s L D : List Char) (h : VolumeForm s L D) :
    matchPieces reVolumeNameProject s = some [L, D] := by
  obtain ⟨caps, hcaps⟩ := matchPieces_volume_complete s L D h
  obtain ⟨L1, D1, hc, hform⟩ := matchPieces_volume_sound s caps hcaps
  obtain ⟨e1, e2⟩ := VolumeForm_unique h hform
  rw [hcaps, hc, e1, e2]


theorem le_foldl_digits (cs : List Char) (n : Nat) :
    n ≤ cs.foldl (fun n c => n * 10 + digitVal c) n := by
  induction cs generalizing n with
  | nil => simp
  | cons c cs ih =>
    simp only [List.foldl_cons]
    have := ih (n * 10 + digitVal c)
    omega

theorem parseUintLoop_digits (cs : List Char) (n : Nat)
    (hall : ∀ c ∈ cs, isDigit c = true) (hn : n ≤ maxUint64) :
    parseUintLoop cs n =
      if cs.foldl (fun n c => n * 10 + digitVal c) n ≤ maxUint64
      then (cs.foldl (fun n c => n * 10 + digitVal c) n, none)
      else (maxUint64, some .ErrRange) := by
  induction cs generalizing n with
  | nil => simp [parseUintLoop, hn]
  | cons c cs ih =>
    have hc : isDigit c = true := hall c (List.mem_cons_self _ _)
    have hrest : ∀ x ∈ cs, isDigit x = true := fun x hx => hall x (List.mem_cons_of_mem _ hx)
    have hge := le_foldl_digits cs (n * 10 + digitVal c)
    simp only [parseUintLoop, hc, if_true, List.foldl_cons]
    by_cases h1 : n ≥ maxUint64 / 10 + 1
    · have hbig : ¬ (cs.foldl (fun n c => n * 10 + digitVal c) (n * 10 + digitVal c)
          ≤ maxUint64) := by
        simp only [maxUint64] at h1 ⊢
        omega
      simp [h1, hbig]
    · by_cases h2 : n * 10 + digitVal c > maxUint64
      · have hbig : ¬ (cs.foldl (fun n c => n * 10 + digitVal c) (n * 10 + digitVal c)
            ≤ maxUint64) := by omega
        simp [h1, h2, hbig]
      · simp only [h1, h2, if_false]
        exact ih _ hrest (by omega)

theorem isDigit_ne_plus {c : Char} (h : isDigit c = true) : c ≠ '+' := by
  intro hc
  subst hc
  revert h
  decide

theorem ParseInt_digits (D : List Char) (hne : D ≠ []) (hall : ∀ c ∈ D, isDigit c = true) :
    ParseInt (String.mk D) =
      if decimalValue D < 2 ^ 63 then ((decimalValue D : Int), none)
      else (2 ^ 63 - 1, some .ErrRange) := by
  cases D with
  | nil => exact absurd rfl hne
  | cons c cs =>
    have hc : isDigit c = true := hall c (List.mem_cons_self _ _)
    have h1 : c ≠ '+' := isDigit_ne_plus hc
    have h2 : c ≠ '-' := isDigit_ne_hyphen hc
    have hloop := parseUintLoop_digits (c :: cs) 0 hall (by simp [maxUint64])
    simp only [ParseInt, h1, h2, or_self, if_false, decide_False, ParseUint, List.isEmpty_cons,
      Bool.false_eq_true, hloop]
    unfold decimalValue
    generalize (c :: cs).foldl (fun n c => n * 10 + digitVal c) 0 = val
    have hmax : maxUint64 = 18446744073709551615 := by norm_num [maxUint64]
    rw [hmax]
    by_cases hv : val ≤ 18446744073709551615
    · by_cases hs : val < 9223372036854775808
      · have hs1 : ¬ (9223372036854775808 ≤ val) := by omega
        simp [hv, hs, hs1]
      · have hs1 : 9223372036854775808 ≤ val := by omega
        simp [hv, hs, hs1]
    · have hs : ¬ val < 9223372036854775808 := by omega
      simp [hv, hs]


theorem FindAll_pod_of_form (s : String) (L D T1 T2 : List Char)
    (h : PodForm s.data L D T1 T2) :
    FindAllStringSubmatch rePodNameProject s = [[s, String.mk L, String.mk D]] := by
  simp [FindAllStringSubmatch, matchPieces_pod _ L D T1 T2 h]

theorem FindAll_pod_of_not_form (s : String)
    (h : ¬ ∃ L D T1 T2, PodForm s.data L D T1 T2) :
    FindAllStringSubmatch rePodNameProject s = [] := by
  unfold FindAllStringSubmatch
  cases hm : matchPieces rePodNameProject s.data with
  | none => rfl
  | some caps =>
    obtain ⟨L, D, T1, T2, _, hf⟩ := matchPieces_pod_sound _ _ hm
    exact absurd ⟨L, D, T1, T2, hf⟩ h

theorem FindAll_volume_of_form (s : String) (L D : List Char) (h : VolumeForm s.data L D) :
    FindAllStringSubmatch reVolumeNameProject s = [[s, String.mk L, String.mk D]] := by
  simp [FindAllStringSubmatch, matchPieces_volume _ L D h]

theorem FindAll_volume_of_not_form (s : String) (h : ¬ ∃ L D, VolumeForm s.data L D) :
    FindAllStringSubmatch reVolumeNameProject s = [] := by
  unfold FindAllStringSubmatch
  cases hm : matchPieces reVolumeNameProject s.data with
  | none => rfl
  | some caps =>
    obtain ⟨L, D, _, hf⟩ := matchPieces_volume_sound _ _ hm
    exact absurd ⟨L, D, hf⟩ h

/-- The project ID `ParseInt` returns for a run of digits of value `n`. -/
theorem ParseInt_digits_fst (D : List Char) (hne : D ≠ []) (hall : ∀ c ∈ D, isDigit c = true) :
    (ParseInt (String.mk D)).1 =
      if decimalValue D < 2 ^ 63 then (decimalValue D : Int) else 2 ^ 63 - 1 := by
  rw [ParseInt_digits D hne hall]
  split <;> rfl

theorem ParseInt_digits_eq_zero (D : List Char) (hne : D ≠ [])
    (hall : ∀ c ∈ D, isDigit c = true) :
    (ParseInt (String.mk D)).1 = 0 ↔ decimalValue D = 0 := by
  rw [ParseInt_digits_fst D hne hall]
  split
  · omega
  · constructor
    · intro h; norm_num at h
    · intro h; omega

theorem syncVectorBody_of_form (name : String) (list : List CollectorDeploymentUsageItem)
    (v : PodVector) (hpod : v.Pod ≠ "") (L D T1 T2 : List Char)
    (h : PodForm v.Pod.data L D T1 T2) :
    syncVectorBody name list v =
      if decimalValue D = 0 then list
      else list ++ [{ ProjectID := (ParseInt (String.mk D)).1, DeploymentName := String.mk L,
                      Name := name, Pod := v.Pod, Value := (ParseFloat v.Value).1,
                      At := v.Time }] := by
  have hz := ParseInt_digits_eq_zero D h.2.2.2.1 h.2.2.2.2.1
  unfold syncVectorBody
  simp only [hpod, ne_eq, not_false_eq_true, if_true, FindAll_pod_of_form _ L D T1 T2 h]
  by_cases hv : decimalValue D = 0
  · simp [hv, hz.mpr hv]
  · have hp : ¬ (ParseInt (String.mk D)).1 = 0 := fun hp => hv (hz.mp hp)
    simp [hv, hp]

theorem syncVectorBody_of_not_form (name : String) (list : List CollectorDeploymentUsageItem)
    (v : PodVector) (hpod : v.Pod ≠ "")
    (h : ¬ ∃ L D T1 T2, PodForm v.Pod.data L D T1 T2) :
    syncVectorBody name list v = list := by
  unfold syncVectorBody
  simp [hpod, FindAll_pod_of_not_form _ h]

theorem syncDiskVectorBody_of_form (name : String) (list : List CollectorDiskUsageItem)
    (v : VolumeVector) (L D : List Char) (h : VolumeForm v.Volume.data L D) :
    syncDiskVectorBody name list v =
      if decimalValue D = 0 then list
      else list ++ [{ ProjectID := (ParseInt (String.mk D)).1, DiskName := String.mk L,
                      Name := name, Value := (ParseFloat v.Value).1, At := v.Time }] := by
  have hz := ParseInt_digits_eq_zero D h.2.2.2.1 h.2.2.2.2
  unfold syncDiskVectorBody
  simp only [FindAll_volume_of_form _ L D h]
  by_cases hv : decimalValue D = 0
  · simp [hv, hz.mpr hv]
  · have hp : ¬ (ParseInt (String.mk D)).1 = 0 := fun hp => hv (hz.mp hp)
    simp [hv, hp]

theorem syncDiskVectorBody_of_not_form (name : String) (list : List CollectorDiskUsageItem)
    (v : VolumeVector) (h : ¬ ∃ L D, VolumeForm v.Volume.data L D) :
    syncDiskVectorBody name list v = list := by
  unfold syncDiskVectorBody
  simp [FindAll_volume_of_not_form _ h]


theorem append_singleton_ne_self {α : Type} (l : List α) (a : α) : l ++ [a] ≠ l := by
  intro h
  have := congrArg List.length h
  simp at this

/-- C3 (amended). For a sample with a non-empty `Pod`, the loop body of
`syncVector` appends an item exactly when the pod name is `L-D-T1-T2` with `L`
non-empty and free of line feeds, `D` a non-empty run of decimal digits of
non-zero value and `T1`, `T2` non-empty and free of hyphens; otherwise it
leaves the list unchanged. When the value of `D` fits in a signed 64-bit
integer the appended item carries `L` and the value of `D`. In particular
`myapp-42-abcde-fghij` gives (myapp, 42), `myapp-42-abcde` is not matched and
`myapp-0-abcde-fghij` is rejected. -/
theorem syncVector_pod_attribution (name : String) (list : List CollectorDeploymentUsageItem)
    (v : PodVector) (hpod : v.Pod ≠ "") :
    ((∃ item, syncVectorBody name list v = list ++ [item]) ↔
        ∃ L D T1 T2, PodForm v.Pod.data L D T1 T2 ∧ decimalValue D ≠ 0)
      ∧ ((¬ ∃ L D T1 T2, PodForm v.Pod.data L D T1 T2 ∧ decimalValue D ≠ 0) →
          syncVectorBody name list v = list)
      ∧ (∀ L D T1 T2, PodForm v.Pod.data L D T1 T2 → decimalValue D ≠ 0 →
          decimalValue D < 2 ^ 63 →
          syncVectorBody name list v =
            list ++ [{ ProjectID := (decimalValue D : Int), DeploymentName := String.mk L,
                       Name := name, Pod := v.Pod, Value := (ParseFloat v.Value).1,
                       At := v.Time }])
      ∧ syncVectorBody "cpu" [] ⟨"myapp-42-abcde-fghij", "", 0, "0"⟩
          = [⟨42, "myapp", "cpu", "myapp-42-abcde-fghij", Float64.zero, 0⟩]
      ∧ syncVectorBody "cpu" [] ⟨"myapp-42-abcde", "", 0, "0"⟩ = []
      ∧ FindAllStringSubmatch rePodNameProject "myapp-42-abcde" = []
      ∧ syncVectorBody "cpu" [] ⟨"myapp-0-abcde-fghij", "", 0, "0"⟩ = []
      ∧ FindAllStringSubmatch rePodNameProject "myapp-0-abcde-fghij"
          = [["myapp-0-abcde-fghij", "myapp", "0"]] := by
  have hskip : (¬ ∃ L D T1 T2, PodForm v.Pod.data L D T1 T2 ∧ decimalValue D ≠ 0) →
      syncVectorBody name list v = list := by
    intro hno
    by_cases hform : ∃ L D T1 T2, PodForm v.Pod.data L D T1 T2
    · obtain ⟨L, D, T1, T2, hf⟩ := hform
      have hz : decimalValue D = 0 := by
        by_contra hz
        exact hno ⟨L, D, T1, T2, hf, hz⟩
      rw [syncVectorBody_of_form name list v hpod L D T1 T2 hf, if_pos hz]
    · exact syncVectorBody_of_not_form name list v hpod hform
  refine ⟨⟨?_, ?_⟩, hskip, ?_, by decide, by decide, by decide, by decide, by decide⟩
  · rintro ⟨item, hitem⟩
    by_contra hno
    rw [hskip hno] at hitem
    exact append_singleton_ne_self list item hitem.symm
  · rintro ⟨L, D, T1, T2, hf, hz⟩
    rw [syncVectorBody_of_form name list v hpod L D T1 T2 hf, if_neg hz]
    exact ⟨_, rfl⟩
  · intro L D T1 T2 hf hz hfit
    rw [syncVectorBody_of_form name list v hpod L D T1 T2 hf, if_neg hz,
      ParseInt_digits_fst D hf.2.2.2.1 hf.2.2.2.2.1, if_pos hfit]

/-- Witness for C3 (amended), at the pod name `myapp-42-abcde-fghij`. -/
theorem syncVector_pod_attribution_myapp :
    (⟨"myapp-42-abcde-fghij", "", 0, "0"⟩ : PodVector).Pod ≠ ""
      ∧ ((∃ item, syncVectorBody "cpu" [] ⟨"myapp-42-abcde-fghij", "", 0, "0"⟩ = [] ++ [item]) ↔
          ∃ L D T1 T2, PodForm "myapp-42-abcde-fghij".data L D T1 T2 ∧ decimalValue D ≠ 0) :=
  ⟨by decide,
    (syncVector_pod_attribution "cpu" [] ⟨"myapp-42-abcde-fghij", "", 0, "0"⟩ (by decide)).1⟩

/-- C3 (as stated, refuted). The pod name `a⏎b-42-x-y` (with a line feed in
its logical name) has the form `L-D-T1-T2` of the claim, with `L` non-empty,
yet the pattern does not match it and the sample is skipped. -/
theorem syncVector_pod_line_feed_not_matched :
    "a\nb-42-x-y".data = "a\nb".data ++ '-' :: ("42".data ++ '-' :: ("x".data ++ '-' :: "y".data))
      ∧ "a\nb".data ≠ [] ∧ "42".data ≠ [] ∧ (∀ c ∈ "42".data, isDigit c = true)
      ∧ decimalValue "42".data ≠ 0
      ∧ "x".data ≠ [] ∧ '-' ∉ "x".data ∧ "y".data ≠ [] ∧ '-' ∉ "y".data
      ∧ FindAllStringSubmatch rePodNameProject "a\nb-42-x-y" = []
      ∧ syncVectorBody "cpu" [] ⟨"a\nb-42-x-y", "", 0, "0"⟩ = [] := by
  decide


/-- C4 (amended). The loop body of `syncDiskVector` appends an item exactly
when the volume name is `L-D` with `L` non-empty and free of line feeds and
`D` a non-empty run of decimal digits of non-zero value that ends the name;
otherwise it leaves the list unchanged. `L` is everything before the last
hyphen, and when the value of `D` fits in a signed 64-bit integer the item
carries `L` and the value of `D`. In particular `data-7` gives (data, 7) and
`data-7-extra` is not matched. -/
theorem syncDiskVector_volume_attribution (name : String) (list : List CollectorDiskUsageItem)
    (v : VolumeVector) :
    ((∃ item, syncDiskVectorBody name list v = list ++ [item]) ↔
        ∃ L D, VolumeForm v.Volume.data L D ∧ decimalValue D ≠ 0)
      ∧ ((¬ ∃ L D, VolumeForm v.Volume.data L D ∧ decimalValue D ≠ 0) →
          syncDiskVectorBody name list v = list)
      ∧ (∀ L D, VolumeForm v.Volume.data L D → decimalValue D ≠ 0 → decimalValue D < 2 ^ 63 →
          syncDiskVectorBody name list v =
            list ++ [{ ProjectID := (decimalValue D : Int), DiskName := String.mk L,
                       Name := name, Value := (ParseFloat v.Value).1, At := v.Time }])
      ∧ (∀ L D, VolumeForm v.Volume.data L D → '-' ∉ D)
      ∧ syncDiskVectorBody "disk_size" [] ⟨"data-7", 0, "0"⟩
          = [⟨7, "data", "disk_size", Float64.zero, 0⟩]
      ∧ syncDiskVectorBody "disk_size" [] ⟨"data-7-extra", 0, "0"⟩ = []
      ∧ FindAllStringSubmatch reVolumeNameProject "data-7-extra" = [] := by
  have hskip : (¬ ∃ L D, VolumeForm v.Volume.data L D ∧ decimalValue D ≠ 0) →
      syncDiskVectorBody name list v = list := by
    intro hno
    by_cases hform : ∃ L D, VolumeForm v.Volume.data L D
    · obtain ⟨L, D, hf⟩ := hform
      have hz : decimalValue D = 0 := by
        by_contra hz
        exact hno ⟨L, D, hf, hz⟩
      rw [syncDiskVectorBody_of_form name list v L D hf, if_pos hz]
    · exact syncDiskVectorBody_of_not_form name list v hform
  refine ⟨⟨?_, ?_⟩, hskip, ?_, ?_, by decide, by decide, by decide⟩
  · rintro ⟨item, hitem⟩
    by_contra hno
    rw [hskip hno] at hitem
    exact append_singleton_ne_self list item hitem.symm
  · rintro ⟨L, D, hf, hz⟩
    rw [syncDiskVectorBody_of_form name list v L D hf, if_neg hz]
    exact ⟨_, rfl⟩
  · intro L D hf hz hfit
    rw [syncDiskVectorBody_of_form name list v L D hf, if_neg hz,
      ParseInt_digits_fst D hf.2.2.2.1 hf.2.2.2.2, if_pos hfit]
  · intro L D hf
    exact hyphen_not_mem_digits hf.2.2.2.2

/-- C4 (as stated, refuted). The volume name `da⏎ta-7` is `L-D` with `L`
non-empty, yet it is not matched; and for `data-9223372036854775808` the item
carries the project ID 9223372036854775807, which is not the value of `D`. -/
theorem syncDiskVector_volume_line_feed_and_overflow :
    ("da\nta-7".data = "da\nta".data ++ '-' :: "7".data ∧ "da\nta".data ≠ []
        ∧ "7".data ≠ [] ∧ (∀ c ∈ "7".data, isDigit c = true) ∧ decimalValue "7".data ≠ 0
        ∧ syncDiskVectorBody "disk_size" [] ⟨"da\nta-7", 0, "0"⟩ = [])
      ∧ (syncDiskVectorBody "disk_size" [] ⟨"data-9223372036854775808", 0, "0"⟩
            = [⟨9223372036854775807, "data", "disk_size", Float64.zero, 0⟩]
          ∧ decimalValue "9223372036854775808".data = 9223372036854775808) := by
  decide

/-- C5 (the code departs from the claim). The pod name
`myapp-9223372036854775808-abcde-fghij` matches the pod pattern and its digits
fail to parse as a signed 64-bit integer (`ParseInt` reports a range error),
yet `syncVector` does not skip the sample: it submits an item for it, with
the project ID 9223372036854775807. `syncDiskVector` does the same for the
volume name `data-9223372036854775808`. -/
theorem syncVector_submits_unparsed_project_id :
    (ParseInt "9223372036854775808").2 = some NumError.ErrRange
      ∧ syncVector "bkk" (fun _ => .ok ()) "cpu"
          (.ok [⟨"myapp-9223372036854775808-abcde-fghij", "", 1700000000, "0"⟩])
        = .ok ⟨some ⟨"bkk", [⟨9223372036854775807, "myapp", "cpu",
            "myapp-9223372036854775808-abcde-fghij", Float64.zero, 1700000000⟩]⟩, none⟩
      ∧ syncDiskVector "bkk" (fun _ => .ok ()) "disk_size"
          (.ok [⟨"data-9223372036854775808", 1700000000, "0"⟩])
        = .ok ⟨some ⟨"bkk", [⟨9223372036854775807, "data", "disk_size", Float64.zero,
            1700000000⟩]⟩, none⟩ := by
  decide


theorem syncVectorBody_shape (name : String) (list : List CollectorDeploymentUsageItem)
    (v : PodVector) :
    ∃ r : Option (Int × String × String),
      (∀ value, syncVectorBody name list { v with Value := value } =
        match r with
        | none => list
        | some (pid, dn, pod) => list ++ [⟨pid, dn, name, pod, (ParseFloat value).1, v.Time⟩])
      ∧ ∀ pid dn pod, r = some (pid, dn, pod) → pid ≠ 0 := by
  unfold syncVectorBody
  simp only []
  split_ifs
  all_goals first
    | exact ⟨none, fun _ => rfl, by simp⟩
    | exact ⟨some (_, _, _), fun _ => rfl, fun pid dn pod h => by
        simp only [Option.some.injEq, Prod.mk.injEq] at h
        rw [← h.1]
        assumption⟩

theorem syncDiskVectorBody_shape (name : String) (list : List CollectorDiskUsageItem)
    (v : VolumeVector) :
    ∃ r : Option (Int × String),
      (∀ value, syncDiskVectorBody name list { v with Value := value } =
        match r with
        | none => list
        | some (pid, dn) => list ++ [⟨pid, dn, name, (ParseFloat value).1, v.Time⟩])
      ∧ ∀ pid dn, r = some (pid, dn) → pid ≠ 0 := by
  unfold syncDiskVectorBody
  simp only []
  split_ifs
  all_goals first
    | exact ⟨none, fun _ => rfl, by simp⟩
    | exact ⟨some (_, _), fun _ => rfl, fun pid dn h => by
        simp only [Option.some.injEq, Prod.mk.injEq] at h
        rw [← h.1]
        assumption⟩

theorem syncVectorBody_cases (name : String) (list : List CollectorDeploymentUsageItem)
    (v : PodVector) :
    syncVectorBody name list v = list ∧ syncVectorBody name [] v = []
      ∨ ∃ item, syncVectorBody name list v = list ++ [item]
          ∧ syncVectorBody name [] v = [item] ∧ item.ProjectID ≠ 0
          ∧ item.Value = (ParseFloat v.Value).1 := by
  unfold syncVectorBody
  simp only []
  split_ifs
  all_goals first
    | exact Or.inl ⟨rfl, rfl⟩
    | exact Or.inr ⟨_, rfl, rfl, by assumption, rfl⟩

theorem syncDiskVectorBody_cases (name : String) (list : List CollectorDiskUsageItem)
    (v : VolumeVector) :
    syncDiskVectorBody name list v = list ∧ syncDiskVectorBody name [] v = []
      ∨ ∃ item, syncDiskVectorBody name list v = list ++ [item]
          ∧ syncDiskVectorBody name [] v = [item] ∧ item.ProjectID ≠ 0
          ∧ item.Value = (ParseFloat v.Value).1 := by
  unfold syncDiskVectorBody
  simp only []
  split_ifs
  all_goals first
    | exact Or.inl ⟨rfl, rfl⟩
    | exact Or.inr ⟨_, rfl, rfl, by assumption, rfl⟩

theorem atof64_syntax_error_zero (s : List Char) (f : Float64) (rest : List Char)
    (h : atof64 s = (f, rest, some NumError.ErrSyntax)) : f = Float64.zero := by
  unfold atof64 at h
  split at h
  · simp at h
  · split at h
    · simp only [Prod.mk.injEq] at h
      exact h.1.symm
    · rename_i r _
      by_cases hm : r.mantissa = 0
      · simp [hm] at h
      · simp only [hm, if_false] at h
        revert h
        generalize roundFloat64 _ _ = rr
        intro h
        rcases rr with _ | ⟨m, e⟩ <;> simp at h

theorem ParseFloat_syntax_error_zero (s : String)
    (h : (ParseFloat s).2 = some NumError.ErrSyntax) : (ParseFloat s).1 = Float64.zero := by
  unfold ParseFloat at h ⊢
  rcases hres : atof64 s.data with ⟨f, rest, err⟩
  rw [hres] at h
  simp only [] at h ⊢
  split_ifs at h ⊢ with hc
  · rfl
  · simp only [] at h
    subst h
    exact atof64_syntax_error_zero _ _ _ hres

/-- C8 (amended). Whether the loop body of `syncVector` (of `syncDiskVector`)
appends an item for a sample does not depend on the value string of the
sample, and the value of the appended item is what `ParseFloat` returns for
that string: the zero value whenever `ParseFloat` reports a syntax error, that
is whenever the string is not a floating-point number. -/
theorem syncVector_item_whatever_the_value (name : String)
    (list : List CollectorDeploymentUsageItem) (v : PodVector)
    (listD : List CollectorDiskUsageItem) (w : VolumeVector) (value : String) :
    (((∃ item, syncVectorBody name list v = list ++ [item]) ↔
        ∃ item, syncVectorBody name list { v with Value := value } = list ++ [item])
      ∧ ∀ item, syncVectorBody name list v = list ++ [item] →
          item.Value = (ParseFloat v.Value).1
            ∧ ((ParseFloat v.Value).2 = some NumError.ErrSyntax → item.Value = Float64.zero))
      ∧ (((∃ item, syncDiskVectorBody name listD w = listD ++ [item]) ↔
          ∃ item, syncDiskVectorBody name listD { w with Value := value } = listD ++ [item])
        ∧ ∀ item, syncDiskVectorBody name listD w = listD ++ [item] →
            item.Value = (ParseFloat w.Value).1
              ∧ ((ParseFloat w.Value).2 = some NumError.ErrSyntax →
                  item.Value = Float64.zero))
      ∧ ((ParseFloat "abc").2 = some NumError.ErrSyntax
          ∧ syncVectorBody "cpu" [] ⟨"myapp-42-abcde-fghij", "", 0, "abc"⟩
              = [⟨42, "myapp", "cpu", "myapp-42-abcde-fghij", Float64.zero, 0⟩]
          ∧ syncDiskVectorBody "disk_size" [] ⟨"data-7", 0, "abc"⟩
              = [⟨7, "data", "disk_size", Float64.zero, 0⟩]) := by
  refine ⟨⟨?_, ?_⟩, ⟨?_, ?_⟩, by decide⟩
  · obtain ⟨r, hr, _⟩ := syncVectorBody_shape name list v
    have h1 := hr v.Value
    have h2 := hr value
    have hv : ({ v with Value := v.Value } : PodVector) = v := by cases v; rfl
    rw [hv] at h1
    rw [h1, h2]
    cases r with
    | none => simp
    | some t => exact ⟨fun _ => ⟨_, rfl⟩, fun _ => ⟨_, rfl⟩⟩
  · intro item hitem
    have hval : item.Value = (ParseFloat v.Value).1 := by
      rcases syncVectorBody_cases name list v with ⟨h1, _⟩ | ⟨item1, h1, _, _, h4⟩
      · rw [h1] at hitem
        exact absurd hitem.symm (append_singleton_ne_self list item)
      · rw [h1] at hitem
        have := List.append_cancel_left hitem
        simp only [List.cons.injEq, and_true] at this
        rw [← this]
        exact h4
    exact ⟨hval, fun herr => hval.trans (ParseFloat_syntax_error_zero _ herr)⟩
  · obtain ⟨r, hr, _⟩ := syncDiskVectorBody_shape name listD w
    have h1 := hr w.Value
    have h2 := hr value
    have hw : ({ w with Value := w.Value } : VolumeVector) = w := by cases w; rfl
    rw [hw] at h1
    rw [h1, h2]
    cases r with
    | none => simp
    | some t => exact ⟨fun _ => ⟨_, rfl⟩, fun _ => ⟨_, rfl⟩⟩
  · intro item hitem
    have hval : item.Value = (ParseFloat w.Value).1 := by
      rcases syncDiskVectorBody_cases name listD w with ⟨h1, _⟩ | ⟨item1, h1, _, _, h4⟩
      · rw [h1] at hitem
        exact absurd hitem.symm (append_singleton_ne_self listD item)
      · rw [h1] at hitem
        have := List.append_cancel_left hitem
        simp only [List.cons.injEq, and_true] at this
        rw [← this]
        exact h4
    exact ⟨hval, fun herr => hval.trans (ParseFloat_syntax_error_zero _ herr)⟩

/-- C8 (as stated, refuted). The value string `1e999` does not parse as a
`float64` (`ParseFloat` reports a range error), the sample is accepted by
attribution, and the item appended for it has the value +Inf, not zero. -/
theorem syncVector_value_out_of_range_is_not_zero :
    (ParseFloat "1e999").2 = some NumError.ErrRange
      ∧ syncVectorBody "cpu" [] ⟨"myapp-42-abcde-fghij", "", 0, "1e999"⟩
          = [⟨42, "myapp", "cpu", "myapp-42-abcde-fghij", Float64.inf false, 0⟩]
      ∧ syncDiskVectorBody "disk_size" [] ⟨"data-7", 0, "1e999"⟩
          = [⟨7, "data", "disk_size", Float64.inf false, 0⟩]
      ∧ (Float64.inf false).isZero = false ∧ Float64.inf false ≠ Float64.zero := by
  decide


theorem queryPodVectorsLoop_skip (pre post : List (Option VectorResult)) (x : VectorResult)
    (vs : List PodVector) (hx : x.Value.length ≠ 2) :
    queryPodVectorsLoop (pre ++ some x :: post) vs = queryPodVectorsLoop (pre ++ post) vs := by
  induction pre generalizing vs with
  | nil => simp [queryPodVectorsLoop, hx]
  | cons y pre ih =>
    cases y with
    | none => simp [queryPodVectorsLoop]
    | some y =>
      simp only [List.cons_append, queryPodVectorsLoop]
      split_ifs
      · exact ih vs
      · exact ih vs
      · split
        · exact ih _
        · rfl

theorem queryVolumeVectorsLoop_skip (pre post : List (Option VectorResult)) (x : VectorResult)
    (vs : List VolumeVector) (hx : x.Value.length ≠ 2) :
    queryVolumeVectorsLoop (pre ++ some x :: post) vs
      = queryVolumeVectorsLoop (pre ++ post) vs := by
  induction pre generalizing vs with
  | nil => simp [queryVolumeVectorsLoop, hx]
  | cons y pre ih =>
    cases y with
    | none => simp [queryVolumeVectorsLoop]
    | some y =>
      simp only [List.cons_append, queryVolumeVectorsLoop]
      split_ifs
      · exact ih vs
      · exact ih vs
      · split
        · exact ih _
        · rfl

/-- C9 (amended). Every gateway call returns an error when the status of the
decoded envelope is not "success". The scalar call `queryVectorValue` returns
a value only for an envelope with exactly one result whose value is a
two-element tuple with a string second; for every other envelope it returns
an error. The vector calls `queryPodVectors` and `queryVolumeVectors` return no
error for a result whose value is not a two-element tuple: they skip that
result and answer as if it were absent. -/
theorem gateway_failures (p : ScalarEnvelope) (q : VectorEnvelope) (resultType : String)
    (pre post : List (Option VectorResult)) (x : VectorResult) :
    (p.Status ≠ "success" → ∃ msg, queryVectorValue (.ok p) = .error msg)
      ∧ (q.Status ≠ "success" → queryPodVectors (.ok q) = .error "not ok"
          ∧ queryVolumeVectors (.ok q) = .error "not ok")
      ∧ (p.Result.length ≠ 1 → ∃ msg, queryVectorValue (.ok p) = .error msg)
      ∧ ((∃ r ∈ p.Result, r.Value.length ≠ 2) → ∃ msg, queryVectorValue (.ok p) = .error msg)
      ∧ (∀ s, queryVectorValue (.ok p) = .ok s ↔
          p.Status = "success" ∧ ∃ r a, p.Result = [r] ∧ r.Value = [a, .string s])
      ∧ ((∃ s, queryVectorValue (.ok p) = .ok s) ∨ ∃ msg, queryVectorValue (.ok p) = .error msg)
      ∧ (x.Value.length ≠ 2 →
          queryPodVectors (.ok ⟨"success", resultType, pre ++ some x :: post⟩)
              = queryPodVectors (.ok ⟨"success", resultType, pre ++ post⟩)
            ∧ queryVolumeVectors (.ok ⟨"success", resultType, pre ++ some x :: post⟩)
              = queryVolumeVectors (.ok ⟨"success", resultType, pre ++ post⟩)) := by
  have hchar : ∀ s, queryVectorValue (.ok p) = .ok s ↔
      p.Status = "success" ∧ ∃ r a, p.Result = [r] ∧ r.Value = [a, .string s] := by
    intro s
    unfold queryVectorValue
    simp only []
    by_cases hst : p.Status = "success"
    · rcases hres : p.Result with _ | ⟨r, _ | ⟨r2, rs⟩⟩
      · simp [hst]
      · rcases hval : r.Value with _ | ⟨a, _ | ⟨b, _ | ⟨c, cs⟩⟩⟩
        · simp [hst, hval]
        · simp [hst, hval]
        · cases b <;> simp [hst, hval]
        · simp [hst, hval]
      · simp [hst]
    · simp [hst]
  have htotal : (∃ s, queryVectorValue (.ok p) = .ok s)
      ∨ ∃ msg, queryVectorValue (.ok p) = .error msg := by
    unfold queryVectorValue
    simp only []
    split_ifs
    · exact Or.inr ⟨_, rfl⟩
    · exact Or.inr ⟨_, rfl⟩
    · split
      · split_ifs
        · exact Or.inr ⟨_, rfl⟩
        · split
          · exact Or.inl ⟨_, rfl⟩
          · exact Or.inr ⟨_, rfl⟩
      · exact Or.inr ⟨_, rfl⟩
  have herr : (¬ ∃ s, queryVectorValue (.ok p) = .ok s) →
      ∃ msg, queryVectorValue (.ok p) = .error msg := fun hno => htotal.resolve_left hno
  refine ⟨?_, ?_, ?_, ?_, hchar, htotal, ?_⟩
  · intro hst
    exact herr (fun ⟨s, hs⟩ => hst ((hchar s).mp hs).1)
  · intro hst
    simp [queryPodVectors, queryVolumeVectors, hst]
  · intro hlen
    refine herr (fun ⟨s, hs⟩ => hlen ?_)
    obtain ⟨_, r, a, hr, _⟩ := (hchar s).mp hs
    simp [hr]
  · rintro ⟨r, hmem, hlen⟩
    refine herr (fun ⟨s, hs⟩ => hlen ?_)
    obtain ⟨_, r1, a, hr, hv⟩ := (hchar s).mp hs
    rw [hr, List.mem_singleton] at hmem
    rw [hmem, hv]
    rfl
  · intro hx
    simp [queryPodVectors, queryVolumeVectors, queryPodVectorsLoop_skip _ _ _ _ hx,
      queryVolumeVectorsLoop_skip _ _ _ _ hx]

/-- C9 (as stated, refuted). The envelope has status "success" and one result
whose value tuple has a single element; `queryPodVectors` and
`queryVolumeVectors` return an empty sample list and no error. -/
theorem vector_queries_skip_short_tuple :
    queryPodVectors (.ok ⟨"success", "vector",
        [some ⟨[("pod", "myapp-42-abcde-fghij")], [.number (.finite false 1700000000 0)]⟩]⟩)
      = .ok []
      ∧ queryVolumeVectors (.ok ⟨"success", "vector",
          [some ⟨[("persistentvolumeclaim", "data-7")],
            [.number (.finite false 1700000000 0)]⟩]⟩)
        = .ok [] := by
  decide

/-- C10 (the code departs from the claim). For an envelope with status
"success", `queryPodVectors` and `queryVolumeVectors` panic on a result entry
that is `null`, on a two-element value tuple whose first element is a string
and on one whose second element is a number. -/
theorem vector_queries_panic :
    queryPodVectors (.ok ⟨"success", "vector", [none]⟩) = .panic
      ∧ queryPodVectors (.ok ⟨"success", "vector",
          [some ⟨[("pod", "myapp-42-abcde-fghij")], [.string "1700000000", .string "1"]⟩]⟩)
        = .panic
      ∧ queryPodVectors (.ok ⟨"success", "vector",
          [some ⟨[("pod", "myapp-42-abcde-fghij")],
            [.number (.finite false 1700000000 0), .number (.finite false 1 0)]⟩]⟩)
        = .panic
      ∧ queryVolumeVectors (.ok ⟨"success", "vector", [none]⟩) = .panic
      ∧ queryVolumeVectors (.ok ⟨"success", "vector",
          [some ⟨[("persistentvolumeclaim", "data-7")],
            [.string "1700000000", .string "1"]⟩]⟩)
        = .panic
      ∧ queryVolumeVectors (.ok ⟨"success", "vector",
          [some ⟨[("persistentvolumeclaim", "data-7")],
            [.number (.finite false 1700000000 0), .number (.finite false 1 0)]⟩]⟩)
        = .panic := by
  decide

/-! ### The fan-out of `RunProject` -/

/-- What holds in every state of an execution: the weight handed out is the
number of units admitted and not yet released, it is at most the size of the
gate, and every unit started is running, about to release, or released. -/
theorem fanOut_invariant (location : Except String (List CollectorProject))
    (sched : List Action) (s : FanOut) (h : exec sched (RunProject location) = some s) :
    s.cur = (if s.admitted.isSome then 1 else 0) + s.running.length + s.releasing.length
      ∧ s.cur ≤ semSize
      ∧ s.started = s.running.length + s.releasing.length + s.released := by
  have hstep : ∀ (a : Action) (s s1 : FanOut), step a s = some s1 →
      (s.cur = (if s.admitted.isSome then 1 else 0) + s.running.length + s.releasing.length
        ∧ s.cur ≤ semSize
        ∧ s.started = s.running.length + s.releasing.length + s.released) →
      (s1.cur = (if s1.admitted.isSome then 1 else 0) + s1.running.length
          + s1.releasing.length
        ∧ s1.cur ≤ semSize
        ∧ s1.started = s1.running.length + s1.releasing.length + s1.released) := by
    intro a s s1 hs ⟨h1, h2, h3⟩
    cases a with
    | acquire =>
      simp only [step] at hs
      split at hs
      · split_ifs at hs with hfree
        simp only [Option.some.injEq] at hs
        subst hs
        rename_i hadm _
        simp only [hadm, Option.isSome_none, Bool.false_eq_true, if_false] at h1
        simp only [semSize] at hfree h2 ⊢
        simp only [Option.isSome_some, if_true]
        omega
      · simp at hs
    | spawn =>
      simp only [step] at hs
      split at hs
      · simp only [Option.some.injEq] at hs
        subst hs
        rename_i p hadm
        simp only [hadm, Option.isSome_some, if_true] at h1
        simp only [Option.isSome_none, Bool.false_eq_true, if_false, List.length_append,
          List.length_singleton]
        omega
      · simp at hs
    | finish i =>
      simp only [step] at hs
      split at hs
      · simp only [Option.some.injEq] at hs
        subst hs
        rename_i p hp
        have hi : i < s.running.length := (List.getElem?_eq_some_iff.mp hp).1
        simp only [List.length_append, List.length_singleton, List.length_eraseIdx, hi, if_true]
        omega
      · simp at hs
    | release i =>
      simp only [step] at hs
      split at hs
      · simp only [Option.some.injEq] at hs
        subst hs
        rename_i p hp
        have hi : i < s.releasing.length := (List.getElem?_eq_some_iff.mp hp).1
        simp only [List.length_eraseIdx, hi, if_true]
        omega
      · simp at hs
  have hexec : ∀ (sched : List Action) (s0 s : FanOut), exec sched s0 = some s →
      (s0.cur = (if s0.admitted.isSome then 1 else 0) + s0.running.length
          + s0.releasing.length
        ∧ s0.cur ≤ semSize
        ∧ s0.started = s0.running.length + s0.releasing.length + s0.released) →
      (s.cur = (if s.admitted.isSome then 1 else 0) + s.running.length + s.releasing.length
        ∧ s.cur ≤ semSize
        ∧ s.started = s.running.length + s.releasing.length + s.released) := by
    intro sched
    induction sched with
    | nil =>
      intro s0 s hs h0
      simp only [exec, Option.some.injEq] at hs
      exact hs ▸ h0
    | cons a rest ih =>
      intro s0 s hs h0
      simp only [exec] at hs
      cases hst : step a s0 with
      | none => simp [hst] at hs
      | some s1 =>
        simp only [hst] at hs
        exact ih s1 s hs (hstep a s0 s1 hst h0)
  refine hexec sched _ s h ?_
  cases location <;> simp [RunProject, semSize]


/-- C11. In every state of every execution of `RunProject`, whatever the
number of discovered projects and the interleaving of the loop with the
goroutines, at most 10 `syncProjectUsage` units are in flight (running, and
also counting those that have returned and not yet released the gate). A
unit is started only when fewer than 10 units hold the gate, the loop can
neither acquire nor start while 10 hold it, and the number of units started
never exceeds the number of releases by more than 10: the unit number 10 + k
starts only after k earlier units have released the gate. -/
theorem RunProject_at_most_ten_in_flight (location : Except String (List CollectorProject))
    (sched : List Action) (s : FanOut) (h : exec sched (RunProject location) = some s) :
    s.running.length ≤ 10
      ∧ s.running.length + s.releasing.length ≤ 10
      ∧ s.started ≤ s.released + 10
      ∧ (s.running.length + s.releasing.length = 10 →
          step .acquire s = none ∧ step .spawn s = none)
      ∧ (∀ s1, step .spawn s = some s1 →
          s.running.length + s.releasing.length < 10
            ∧ s1.running.length = s.running.length + 1) := by
  obtain ⟨h1, h2, h3⟩ := fanOut_invariant location sched s h
  simp only [semSize] at h2
  have hle : s.running.length + s.releasing.length ≤ 10 := by omega
  refine ⟨by omega, hle, by omega, ?_, ?_⟩
  · intro hfull
    have hadm : s.admitted = none := by
      cases hs : s.admitted with
      | none => rfl
      | some p =>
        rw [hs] at h1
        simp only [Option.isSome_some, if_true] at h1
        omega
    have hcur : s.cur = 10 := by
      rw [hadm] at h1
      simp only [Option.isSome_none, Bool.false_eq_true, if_false] at h1
      omega
    constructor
    · simp only [step, hadm]
      cases s.pending with
      | nil => rfl
      | cons p ps => simp [semSize, hcur]
    · simp [step, hadm]
  · intro s1 hs1
    simp only [step] at hs1
    cases hs : s.admitted with
    | none => simp [hs] at hs1
    | some p =>
      rw [hs] at h1 hs1
      simp only [Option.isSome_some, if_true] at h1
      simp only [Option.some.injEq] at hs1
      subst hs1
      exact ⟨by omega, by simp⟩

/-- Witness for C11: twelve projects are discovered and the loop starts ten
units while none returns. Ten units are then in flight, the loop cannot
acquire for project 11, also not after a unit has returned without
releasing; once a unit has released, project 11 is admitted and started. -/
theorem RunProject_twelve_projects :
    exec tenStarts (RunProject (.ok twelveProjects)) = some tenRunning
      ∧ (tenRunning.running.length ≤ 10
        ∧ tenRunning.running.length + tenRunning.releasing.length ≤ 10
        ∧ tenRunning.started ≤ tenRunning.released + 10
        ∧ (tenRunning.running.length + tenRunning.releasing.length = 10 →
            step .acquire tenRunning = none ∧ step .spawn tenRunning = none)
        ∧ (∀ s1, step .spawn tenRunning = some s1 →
            tenRunning.running.length + tenRunning.releasing.length < 10
              ∧ s1.running.length = tenRunning.running.length + 1))
      ∧ tenRunning.running.length = 10
      ∧ exec (tenStarts ++ [.acquire]) (RunProject (.ok twelveProjects)) = none
      ∧ exec (tenStarts ++ [.finish 3, .acquire]) (RunProject (.ok twelveProjects)) = none
      ∧ exec (tenStarts ++ [.finish 3, .release 0, .acquire, .spawn])
          (RunProject (.ok twelveProjects))
        = some ⟨[⟨12⟩], none, [⟨1⟩, ⟨2⟩, ⟨3⟩, ⟨5⟩, ⟨6⟩, ⟨7⟩, ⟨8⟩, ⟨9⟩, ⟨10⟩, ⟨11⟩], [],
            10, 11, 1⟩ :=
  ⟨by decide,
    RunProject_at_most_ten_in_flight (.ok twelveProjects) tenStarts tenRunning (by decide),
    by decide, by decide, by decide, by decide⟩

end Collector
